import Mathlib

/-!
Verification of the taskmaster-rs iCalendar codec (src/parser.rs), data model
(src/task.rs) and the file-export branch of the UI loop (src/app.rs).

Strings are modelled as lists of characters (`Str`), so that every operation
of the source can be re-traced structurally.  Machine integers of the source
(`u8` fields `progress` and `priority`, color components) are modelled as
`Nat` together with explicit range conditions where the source type bounds
them.  Fallible operations return `Option` or an explicit outcome type.

The decoder of the source reads through `ical::PropertyParser` (an external
crate).  Following the specification, the lexer is modelled from the spec:
one logical property per line of the form `NAME:VALUE` or `NAME;PARAMS:VALUE`,
a line without a separating colon is malformed, an empty value is reported as
an absent value, and input is assumed to be already unfolded.  Carriage
returns and signed years are not modelled; the validity predicates used by
the round-trip theorems exclude them.
-/

namespace Taskmaster

/-- Character-list model of Rust `String` / `&str`. -/
abbrev Str := List Char

/-- Shorthand turning a Lean string literal into its character list. -/
def str (s : String) : Str := s.data

-- ---------------------------------------------------------------------------
-- Data model (src/task.rs, plus the `uuid` field used by src/parser.rs and
-- src/app.rs; the transient ui flag `show_modal` is carried along unchanged)
-- ---------------------------------------------------------------------------

/-- Model of `chrono::NaiveDate`: a calendar date with year, month, day. -/
structure Date where
  y : Nat
  m : Nat
  d : Nat
deriving DecidableEq, Repr

/-- Model of `chrono::NaiveDateTime` at second precision (the codec only ever
formats and parses whole seconds). -/
structure DateTime where
  date : Date
  hh : Nat
  mm : Nat
  ss : Nat
deriving DecidableEq, Repr

/-- The `TaskStatus` enum of src/task.rs. -/
inductive TaskStatus where
  | InProgress
  | NeedsAction
  | Completed
  | Cancelled
deriving DecidableEq, Repr

/-- Model of `egui::Color32` restricted to the rgb components the codec reads
and writes (`Color32::from_rgb`, `.r()`, `.g()`, `.b()`); each component is a
`u8`, modelled as `Nat` with bound 256 where it matters. -/
structure Color where
  r : Nat
  g : Nat
  b : Nat
deriving DecidableEq, Repr

/-- The `Task` struct of src/task.rs, together with the `uuid` field that
src/parser.rs (`task.uuid`) and src/app.rs use; the uuid is modelled as its
display string. -/
structure Task where
  summary : Str
  completed : Bool
  description : Str
  progress : Nat
  priority : Nat
  status : TaskStatus
  due : Option Date
  created : DateTime
  show_modal : Bool
  uuid : Str
deriving DecidableEq, Repr

/-- The `Default` instance for `Task` (src/task.rs): `created` is the clock
value at construction time and the uuid is freshly generated, so both enter
the model as parameters. -/
def Task.defaultTask (now : DateTime) (u : Str) : Task :=
  { summary := str "New task"
    completed := false
    description := []
    progress := 0
    priority := 0
    status := TaskStatus.InProgress
    due := none
    created := now
    show_modal := false
    uuid := u }

/-- The `TaskList` struct of src/task.rs. -/
structure TaskList where
  name : Str
  tasks : List Task
  color : Color
deriving DecidableEq, Repr

/-- Model of `egui::Color32::DEBUG_COLOR`, the default list color
(rgb part of `from_rgba_premultiplied(0, 200, 0, 128)`). -/
def debugColor : Color := { r := 0, g := 200, b := 0 }

/-- The `Default` instance for `TaskList` (src/task.rs). -/
def TaskList.defaultList : TaskList :=
  { name := str "New list", tasks := [], color := debugColor }

-- ---------------------------------------------------------------------------
-- Property lexer
-- ---------------------------------------------------------------------------

/-- One property record as produced by the lexer: a name and an optional
value (absent when the text after the colon is empty). -/
structure Property where
  name : Str
  value : Option Str
deriving DecidableEq, Repr

/-- One element of the property stream: a parsed property or a lexer failure
for a malformed line. -/
inductive PropLine where
  | prop (p : Property)
  | malformed
deriving DecidableEq, Repr

/-- Splits a character list into the chunks between newline characters.  The
result is always nonempty; a trailing newline contributes a final empty
chunk. -/
def splitLines : Str → List Str
  | [] => [[]]
  | c :: rest =>
    if c = '\n' then [] :: splitLines rest
    else
      match splitLines rest with
      | l :: ls => (c :: l) :: ls
      | [] => [[c]]

/-- Splits a line at its first colon, returning the parts before and after
it, or `none` when the line has no colon. -/
def splitOnFirstColon : Str → Option (Str × Str)
  | [] => none
  | c :: rest =>
    if c = ':' then some ([], rest)
    else (splitOnFirstColon rest).map (fun p => (c :: p.1, p.2))

/-- Modelled from the spec: the line-level behaviour of the external
`ical::PropertyParser` used by `TaskList::from_ical_file`.  A content line is
`NAME:VALUE`, optionally `NAME;PARAMS:VALUE` with the parameters ignored; a
line that cannot be split at a colon is a malformed-line failure; an empty
value is reported as an absent value. -/
def parseContentLine (l : Str) : PropLine :=
  match splitOnFirstColon l with
  | none => PropLine.malformed
  | some (pre, post) =>
    PropLine.prop
      { name := pre.takeWhile (fun c => c ≠ ';')
        value := if post.isEmpty then none else some post }

/-- Modelled from the spec: the property lexer over raw text.  Text is cut at
newline characters, empty lines are skipped, and every remaining line is
parsed as a content line, in file order. -/
def lexIcal (text : Str) : List PropLine :=
  ((splitLines text).filter (fun l => !l.isEmpty)).map parseContentLine

-- ---------------------------------------------------------------------------
-- Field parsers (models of the external parsing crates used by the decoder)
-- ---------------------------------------------------------------------------

/-- Decimal digit test. -/
def isDigitCh (c : Char) : Bool := decide ('0' ≤ c) && decide (c ≤ '9')

/-- True when every character of the list is a decimal digit. -/
def allDigits (s : Str) : Bool := s.all isDigitCh

/-- Numeric value of a digit string (most significant digit first); callers
establish `allDigits` separately. -/
def digitsVal (s : Str) : Nat := s.foldl (fun acc c => acc * 10 + (c.toNat - 48)) 0

/-- Model of `str::parse::<u8>()` as used for `PRIORITY` and
`PERCENT-COMPLETE`: an optional leading plus sign, then at least one decimal
digit, with the value required to fit in a `u8`. -/
def parseU8 (s : Str) : Option Nat :=
  let t : Str := match s with
    | [] => []
    | c :: rest => if c = '+' then rest else c :: rest
  if t.isEmpty then none
  else if allDigits t && digitsVal t ≤ 255 then some (digitsVal t) else none

/-- Leap year rule of the proleptic Gregorian calendar used by `chrono`. -/
def isLeapYear (y : Nat) : Bool := (y % 4 = 0 && !(y % 100 = 0)) || y % 400 = 0

/-- Number of days of month `m` of year `y`. -/
def daysInMonth (y m : Nat) : Nat :=
  if m = 2 then (if isLeapYear y then 29 else 28)
  else if m = 4 || m = 6 || m = 9 || m = 11 then 30
  else 31

/-- Calendar validity of a year/month/day triple. -/
def validYmd (y m d : Nat) : Bool :=
  1 ≤ m && m ≤ 12 && 1 ≤ d && d ≤ daysInMonth y m

/-- Model of `chrono::NaiveDateTime::parse_from_str(s, "%Y%m%dT%H%M%S")` on
nonnegative four-digit years: exactly fifteen characters, eight digits, a
literal `T`, six digits, and the fields must form a valid calendar date and
a valid time of day. -/
def parseIcalDateTime (s : Str) : Option DateTime :=
  match s with
  | [y1, y2, y3, y4, m1, m2, d1, d2, t, h1, h2, n1, n2, e1, e2] =>
    if t = 'T' && allDigits [y1, y2, y3, y4, m1, m2, d1, d2]
        && allDigits [h1, h2, n1, n2, e1, e2] then
      let y := digitsVal [y1, y2, y3, y4]
      let mo := digitsVal [m1, m2]
      let da := digitsVal [d1, d2]
      let ho := digitsVal [h1, h2]
      let mi := digitsVal [n1, n2]
      let se := digitsVal [e1, e2]
      if validYmd y mo da && ho < 24 && mi < 60 && se < 60 then
        some { date := { y := y, m := mo, d := da }, hh := ho, mm := mi, ss := se }
      else none
    else none
  | _ => none

/-- Value of a hexadecimal digit, upper or lower case. -/
def hexDigitVal (c : Char) : Option Nat :=
  if '0' ≤ c ∧ c ≤ '9' then some (c.toNat - 48)
  else if 'a' ≤ c ∧ c ≤ 'f' then some (c.toNat - 87)
  else if 'A' ≤ c ∧ c ≤ 'F' then some (c.toNat - 55)
  else none

/-- Model of `colorsys::Rgb::from_hex_str` followed by rounding into
`Color32::from_rgb`, as used for `X-APPLE-CALENDAR-COLOR`: an optional
leading hash, then either six hexadecimal digits (`RRGGBB`) or the
three-digit short form (`RGB`, each digit doubled); anything else fails. -/
def rgbFromHexStr (s : Str) : Option Color :=
  let t := match s with
    | '#' :: rest => rest
    | _ => s
  match t with
  | [a, b, c, d, e, f] =>
    match hexDigitVal a, hexDigitVal b, hexDigitVal c,
        hexDigitVal d, hexDigitVal e, hexDigitVal f with
    | some va, some vb, some vc, some vd, some ve, some vf =>
      some { r := 16 * va + vb, g := 16 * vc + vd, b := 16 * ve + vf }
    | _, _, _, _, _, _ => none
  | [a, b, c] =>
    match hexDigitVal a, hexDigitVal b, hexDigitVal c with
    | some va, some vb, some vc =>
      some { r := 17 * va, g := 17 * vb, b := 17 * vc }
    | _, _, _ => none
  | _ => none

end Taskmaster

namespace Taskmaster

-- ---------------------------------------------------------------------------
-- Formatting helpers used by the encoder
-- ---------------------------------------------------------------------------

/-- Big-endian decimal digits of `n`, driven by a fuel argument so that the
definition reduces structurally; `natToStr` instantiates the fuel with `n`
itself, which is always sufficient. -/
def natDigits : Nat → Nat → Str
  | 0, _ => []
  | fuel + 1, n => if n = 0 then [] else natDigits fuel (n / 10) ++ [Char.ofNat (48 + n % 10)]

/-- Model of the `Display` formatting of an unsigned integer (`format!`):
decimal digits without padding, with zero printed as a single digit. -/
def natToStr (n : Nat) : Str := if n = 0 then ['0'] else natDigits n n

/-- Left-pads a digit string with zeros up to width `k`, as the `chrono`
numeric format specifiers do. -/
def padZeros (k : Nat) (s : Str) : Str := List.replicate (k - s.length) '0' ++ s

/-- The `datetime_to_ical_str` function of src/parser.rs: `chrono` formatting
with `"%Y%m%dT%H%M%S"` (year zero-padded to four digits, every other field to
two). -/
def datetime_to_ical_str (dt : DateTime) : Str :=
  padZeros 4 (natToStr dt.date.y) ++ padZeros 2 (natToStr dt.date.m)
    ++ padZeros 2 (natToStr dt.date.d) ++ ['T'] ++ padZeros 2 (natToStr dt.hh)
    ++ padZeros 2 (natToStr dt.mm) ++ padZeros 2 (natToStr dt.ss)

/-- Upper-case hexadecimal digit of a value below sixteen. -/
def hexDigitUpper (n : Nat) : Char :=
  if n < 10 then Char.ofNat (48 + n) else Char.ofNat (55 + n)

/-- Model of the `{:X}` format specifier applied to a `u8` color component:
upper-case hexadecimal digits with no zero padding, so values below sixteen
produce a single digit. -/
def hexUpperU8 (n : Nat) : Str :=
  if n < 16 then [hexDigitUpper n] else [hexDigitUpper (n / 16), hexDigitUpper (n % 16)]

/-- Model of `str::replace` at the single-character pattern used by the
encoder: every newline character of the description is replaced by the
two-character sequence backslash-n. -/
def escapeNewlines (s : Str) : Str :=
  s.flatMap (fun c => if c = '\n' then ['\\', 'n'] else [c])

/-- Model of `str::replace` at the fixed two-character pattern used by the
decoder (`value.replace("\\n", "\n")`): non-overlapping occurrences of
backslash-n are rewritten, left to right, into a newline character. -/
def unescapeNewlines : Str → Str
  | [] => []
  | [c] => [c]
  | c :: c2 :: rest =>
    if c = '\\' ∧ c2 = 'n' then '\n' :: unescapeNewlines rest
    else c :: unescapeNewlines (c2 :: rest)

-- ---------------------------------------------------------------------------
-- Encoder: TaskList::to_ical_string (src/parser.rs)
-- ---------------------------------------------------------------------------

/-- The text pushed for one task by the loop body of `to_ical_string`, in the
exact chunk order of the source; `now` is the clock value read for the
`LAST-MODIFIED` and `DTSTAMP` lines. -/
def taskBlock (now : DateTime) (task : Task) : Str :=
  str "\nBEGIN:VTODO\n"
    ++ (str "UID:" ++ task.uuid ++ [ '\n'])
    ++ (str "CREATED:" ++ datetime_to_ical_str task.created ++ [ '\n'])
    ++ (str "LAST-MODIFIED:" ++ datetime_to_ical_str now ++ [ '\n'])
    ++ (str "DTSTAMP:" ++ datetime_to_ical_str now ++ [ '\n'])
    ++ (str "SUMMARY:" ++ task.summary ++ [ '\n'])
    ++ (match task.due with
        | some due =>
          str "DUE:" ++ datetime_to_ical_str { date := due, hh := 0, mm := 0, ss := 0 } ++ [ '\n']
        | none => [])
    ++ (if task.priority ≠ 0 then str "PRIORITY:" ++ natToStr task.priority ++ [ '\n'] else [])
    ++ (if task.progress ≠ 0 then
          str "PERCENT-COMPLETE:" ++ natToStr task.progress ++ [ '\n']
        else [])
    ++ (if task.completed then str "STATUS:COMPLETED\n"
        else
          str "STATUS:" ++
            (match task.status with
             | TaskStatus.InProgress => str "IN-PROGRESS\n"
             | TaskStatus.NeedsAction => str "NEEDS-ACTION\n"
             | TaskStatus.Completed => str "COMPLETED\n"
             | TaskStatus.Cancelled => str "CANCELLED\n"))
    ++ (if !task.description.isEmpty then
          str "DESCRIPTION:" ++ escapeNewlines task.description ++ [ '\n']
        else [])
    ++ str "END:VTODO\n"

/-- The `TaskList::to_ical_string` function of src/parser.rs: the fixed
header (whose final line carries no trailing newline), one block per task in
list order, and the closing `END:VCALENDAR` line. -/
def to_ical_string (now : DateTime) (list : TaskList) : Str :=
  str "BEGIN:VCALENDAR\nVERSION:2.0\nCALSCALE:GREGORIAN\nPRODID:-//taskmaster-rs//github.com//\nX-WR-CALNAME:"
    ++ list.name
    ++ str "\nX-APPLE-CALENDAR-COLOR:"
    ++ ([ '#'] ++ hexUpperU8 list.color.r ++ hexUpperU8 list.color.g ++ hexUpperU8 list.color.b)
    ++ str "\nREFRESH-INTERVAL;VALUE=DURATION:PT4H\nX-PUBLISHED-TTL:PT4H"
    ++ list.tasks.flatMap (taskBlock now)
    ++ str "END:VCALENDAR\n"

-- ---------------------------------------------------------------------------
-- Decoder: TaskList::from_ical_file (src/parser.rs)
-- ---------------------------------------------------------------------------

/-- The error enum `ParseFromFileError` of src/parser.rs. -/
inductive ParseFromFileError where
  | InvalidFile
  | InvalidStatus
  | NonTaskItem
  | InvalidField
deriving DecidableEq, Repr

/-- The mutable state of the decoding loop: the list under construction
(name and color), the buffer of tasks, and the cursor index. -/
structure DecState where
  name : Str
  color : Color
  tasks : List Task
  task_counter : Nat
deriving DecidableEq, Repr

/-- Outcome of processing one property: continue with a new state, abort
with an error, or hit the index-out-of-bounds panic of `tasks[task_counter]`
on an empty or exhausted buffer. -/
inductive StepResult where
  | cont (s : DecState)
  | err (e : ParseFromFileError)
  | panicked
deriving DecidableEq, Repr

/-- Model of the `tasks[task_counter].field = v` assignments of the decoding
loop: indexing past the end of the buffer is the Rust index panic. -/
def setTask (s : DecState) (f : Task → Task) : StepResult :=
  if h : s.task_counter < s.tasks.length then
    StepResult.cont { s with tasks := s.tasks.set s.task_counter (f (s.tasks.get ⟨s.task_counter, h⟩)) }
  else StepResult.panicked

/-- The name-dispatch of one iteration of the decoding loop of
`from_ical_file`, applied once the line is known to carry a value.  The
branches appear in source order; `now` is the clock value used by
`Task::default()` and `fresh` supplies the uuid generated for the k-th task
created. -/
def stepNamed (now : DateTime) (fresh : Nat → Str) (s : DecState)
    (nm value : Str) : StepResult :=
      if nm = str "X-WR-CALNAME" then StepResult.cont { s with name := value }
      else if nm = str "X-APPLE-CALENDAR-COLOR" then
        match rgbFromHexStr value with
        | some rgb => StepResult.cont { s with color := rgb }
        | none => StepResult.cont s
      else if nm = str "BEGIN" then
        if value = str "VTODO" then
          StepResult.cont { s with tasks := s.tasks ++ [Task.defaultTask now (fresh s.tasks.length)] }
        else if value = str "VCALENDAR" then StepResult.cont s
        else StepResult.err ParseFromFileError.NonTaskItem
      else if nm = str "SUMMARY" then
        setTask s (fun t => { t with summary := value })
      else if nm = str "DUE" then
        match parseIcalDateTime value with
        | some date => setTask s (fun t => { t with due := some date.date })
        | none => StepResult.err ParseFromFileError.InvalidField
      else if nm = str "PRIORITY" then
        match parseU8 value with
        | some priority => setTask s (fun t => { t with priority := priority })
        | none => StepResult.err ParseFromFileError.InvalidField
      else if nm = str "PERCENT-COMPLETE" then
        match parseU8 value with
        | some progress => setTask s (fun t => { t with progress := progress })
        | none => StepResult.err ParseFromFileError.InvalidField
      else if nm = str "STATUS" then
        if h : s.task_counter < s.tasks.length then
          let task := s.tasks.get ⟨s.task_counter, h⟩
          if value = str "IN-PROGRESS" then
            StepResult.cont { s with tasks := s.tasks.set s.task_counter { task with status := TaskStatus.InProgress } }
          else if value = str "NEEDS-ACTION" then
            StepResult.cont { s with tasks := s.tasks.set s.task_counter { task with status := TaskStatus.NeedsAction } }
          else if value = str "COMPLETED" then
            StepResult.cont { s with tasks := s.tasks.set s.task_counter { task with completed := true, status := TaskStatus.Completed } }
          else if value = str "CANCELLED" then
            StepResult.cont { s with tasks := s.tasks.set s.task_counter { task with status := TaskStatus.Cancelled } }
          else StepResult.err ParseFromFileError.InvalidStatus
        else StepResult.panicked
      else if nm = str "DESCRIPTION" then
        setTask s (fun t => { t with description := unescapeNewlines value })
      else if nm = str "END" then
        if value = str "VTODO" then StepResult.cont { s with task_counter := s.task_counter + 1 }
        else StepResult.cont s
      else if nm = str "CREATED" then
        match parseIcalDateTime value with
        | some date => setTask s (fun t => { t with created := date })
        | none => StepResult.err ParseFromFileError.InvalidField
      else StepResult.cont s

/-- One iteration of the decoding loop of `from_ical_file`: a malformed line
aborts, an absent value aborts, and otherwise the property is dispatched on
its name by `stepNamed`. -/
def step (now : DateTime) (fresh : Nat → Str) (s : DecState) : PropLine → StepResult
  | PropLine.malformed => StepResult.err ParseFromFileError.InvalidFile
  | PropLine.prop p =>
    match p.value with
    | none => StepResult.err ParseFromFileError.InvalidField
    | some value => stepNamed now fresh s p.name value

/-- Folds the decoding loop over the property stream, aborting at the first
error or panic. -/
def runProps (now : DateTime) (fresh : Nat → Str) (s : DecState) : List PropLine → StepResult
  | [] => StepResult.cont s
  | p :: rest =>
    match step now fresh s p with
    | StepResult.cont s' => runProps now fresh s' rest
    | r => r

/-- Overall outcome of a decode: a task list, an error value, or the index
panic. -/
inductive DecodeOutcome where
  | ok (list : TaskList)
  | err (e : ParseFromFileError)
  | panicked
deriving DecidableEq, Repr

/-- The `TaskList::from_ical_file` loop run over an already-lexed property
stream, starting from `TaskList::default()` with an empty buffer and cursor
zero, and finishing with `list.tasks = tasks`. -/
def from_ical_props (now : DateTime) (fresh : Nat → Str) (props : List PropLine) : DecodeOutcome :=
  match runProps now fresh
      { name := TaskList.defaultList.name, color := TaskList.defaultList.color,
        tasks := [], task_counter := 0 } props with
  | StepResult.cont s => DecodeOutcome.ok { name := s.name, tasks := s.tasks, color := s.color }
  | StepResult.err e => DecodeOutcome.err e
  | StepResult.panicked => DecodeOutcome.panicked

/-- `TaskList::from_ical_file` on the text of an already-opened file: lex the
text into the property stream and run the decoding loop over it. -/
def from_ical_string (now : DateTime) (fresh : Nat → Str) (text : Str) : DecodeOutcome :=
  from_ical_props now fresh (lexIcal text)

end Taskmaster

namespace Taskmaster

-- ---------------------------------------------------------------------------
-- Lemmas about lines and the lexer
-- ---------------------------------------------------------------------------

/-- Joins a list of lines into text, terminating every line with a newline. -/
def joinLines (ls : List Str) : Str := ls.flatMap (fun l => l ++ ['\n'])

theorem joinLines_nil : joinLines [] = [] := rfl

theorem joinLines_cons (l : Str) (ls : List Str) :
    joinLines (l :: ls) = l ++ '\n' :: joinLines ls := by
  simp [joinLines]

theorem joinLines_append (a b : List Str) :
    joinLines (a ++ b) = joinLines a ++ joinLines b := by
  simp [joinLines]

theorem splitLines_ne_nil (s : Str) : splitLines s ≠ [] := by
  induction s with
  | nil => simp [splitLines]
  | cons c rest ih =>
    simp only [splitLines]
    split
    · simp
    · cases h : splitLines rest with
      | nil => simp
      | cons l ls => simp

theorem splitLines_cons_newline (rest : Str) :
    splitLines ('\n' :: rest) = [] :: splitLines rest := by
  simp [splitLines]

theorem splitLines_append_line (l rest : Str) (h : '\n' ∉ l) :
    splitLines (l ++ '\n' :: rest) = l :: splitLines rest := by
  induction l with
  | nil => simp [splitLines]
  | cons c l ih =>
    have hc : c ≠ '\n' := fun hc => h (hc ▸ List.mem_cons_self c l)
    have hl : '\n' ∉ l := fun hl => h (List.mem_cons_of_mem c hl)
    simp only [List.cons_append, splitLines, List.append_eq, if_neg hc, ih hl]

theorem splitLines_joinLines (ls : List Str) (h : ∀ l ∈ ls, '\n' ∉ l) :
    splitLines (joinLines ls) = ls ++ [[]] := by
  induction ls with
  | nil => simp [joinLines, splitLines]
  | cons l ls ih =>
    rw [joinLines_cons, splitLines_append_line l _ (h l (List.mem_cons_self l ls))]
    rw [ih (fun x hx => h x (List.mem_cons_of_mem l hx))]
    simp

theorem lexIcal_joinLines (ls : List Str) (h : ∀ l ∈ ls, '\n' ∉ l) :
    lexIcal (joinLines ls) = (ls.filter (fun l => !l.isEmpty)).map parseContentLine := by
  rw [lexIcal, splitLines_joinLines ls h]
  simp

theorem splitOnFirstColon_append (n v : Str) (h : ':' ∉ n) :
    splitOnFirstColon (n ++ ':' :: v) = some (n, v) := by
  induction n with
  | nil => simp [splitOnFirstColon]
  | cons c n ih =>
    have hc : c ≠ ':' := fun hc => h (hc ▸ List.mem_cons_self c n)
    have hn : ':' ∉ n := fun hn => h (List.mem_cons_of_mem c hn)
    simp [splitOnFirstColon, if_neg hc, ih hn]

theorem parseContentLine_split (n v : Str) (h : ':' ∉ n) :
    parseContentLine (n ++ ':' :: v) =
      PropLine.prop
        { name := n.takeWhile (fun c => c ≠ ';')
          value := if v.isEmpty then none else some v } := by
  rw [parseContentLine, splitOnFirstColon_append n v h]

end Taskmaster

namespace Taskmaster

-- ---------------------------------------------------------------------------
-- Lemmas about digits, numbers and the fixed timestamp format
-- ---------------------------------------------------------------------------

theorem isDigitCh_ofNat (k : Nat) (h : k < 10) : isDigitCh (Char.ofNat (48 + k)) = true := by
  interval_cases k <;> decide

theorem toNat_ofNat_digit (k : Nat) (h : k < 10) : (Char.ofNat (48 + k)).toNat - 48 = k := by
  interval_cases k <;> decide

theorem ne_newline_of_isDigitCh (c : Char) (h : isDigitCh c = true) : c ≠ '\n' := by
  intro hc
  rw [hc] at h
  exact absurd h (by decide)

theorem allDigits_append (a b : Str) :
    allDigits (a ++ b) = (allDigits a && allDigits b) := by
  simp [allDigits, List.all_append]

theorem not_newline_mem_of_allDigits (s : Str) (h : allDigits s = true) : '\n' ∉ s := by
  intro hm
  exact ne_newline_of_isDigitCh '\n' (List.all_eq_true.mp h _ hm) rfl

theorem digitsVal_snoc (a : Str) (c : Char) :
    digitsVal (a ++ [c]) = digitsVal a * 10 + (c.toNat - 48) := by
  simp [digitsVal, List.foldl_append]

theorem digitsVal_replicate_zero (k : Nat) (s : Str) :
    digitsVal (List.replicate k '0' ++ s) = digitsVal s := by
  induction k with
  | zero => simp
  | succ k ih =>
    simpa [List.replicate_succ, digitsVal] using ih

theorem allDigits_natDigits (fuel n : Nat) : allDigits (natDigits fuel n) = true := by
  induction fuel generalizing n with
  | zero => rfl
  | succ f ih =>
    rw [natDigits]
    split
    · rfl
    · rw [allDigits_append, ih]
      have : isDigitCh (Char.ofNat (48 + n % 10)) = true :=
        isDigitCh_ofNat (n % 10) (Nat.mod_lt n (by omega))
      simp [allDigits, this]

theorem digitsVal_natDigits (fuel n : Nat) (h : n ≤ fuel) :
    digitsVal (natDigits fuel n) = n := by
  induction fuel generalizing n with
  | zero =>
    have : n = 0 := by omega
    subst this
    rfl
  | succ f ih =>
    rw [natDigits]
    split
    · subst ‹n = 0›
      rfl
    · rename_i hn
      have hdiv : n / 10 ≤ f := by
        have h10 : n / 10 < n := Nat.div_lt_self (Nat.pos_of_ne_zero hn) (by norm_num)
        omega
      rw [digitsVal_snoc, ih _ hdiv, toNat_ofNat_digit (n % 10) (Nat.mod_lt n (by omega))]
      omega

theorem length_natDigits_le (fuel n k : Nat) (h : n < 10 ^ k) :
    (natDigits fuel n).length ≤ k := by
  induction fuel generalizing n k with
  | zero => simp [natDigits]
  | succ f ih =>
    rw [natDigits]
    split
    · simp
    · rename_i hn
      cases k with
      | zero =>
        rw [Nat.pow_zero] at h
        exact absurd (show n = 0 by omega) hn
      | succ k' =>
        have hdiv : n / 10 < 10 ^ k' := by
          rw [Nat.div_lt_iff_lt_mul (by omega)]
          calc n < 10 ^ (k' + 1) := h
            _ = 10 ^ k' * 10 := by rw [Nat.pow_succ]
        have := ih (n / 10) k' hdiv
        simp only [List.length_append, List.length_singleton]
        omega

theorem allDigits_natToStr (n : Nat) : allDigits (natToStr n) = true := by
  rw [natToStr]
  split
  · rfl
  · exact allDigits_natDigits n n

theorem digitsVal_natToStr (n : Nat) : digitsVal (natToStr n) = n := by
  rw [natToStr]
  split
  · subst ‹n = 0›
    rfl
  · exact digitsVal_natDigits n n le_rfl

theorem length_natToStr_le (n k : Nat) (hk : 1 ≤ k) (h : n < 10 ^ k) :
    (natToStr n).length ≤ k := by
  rw [natToStr]
  split
  · simpa using hk
  · exact length_natDigits_le n n k h

theorem natToStr_ne_nil (n : Nat) : natToStr n ≠ [] := by
  rw [natToStr]
  split
  · simp
  · rename_i hn
    obtain ⟨f, rfl⟩ : ∃ f, n = f + 1 := ⟨n - 1, by omega⟩
    rw [natDigits, if_neg hn]
    simp

theorem length_padZeros (k : Nat) (s : Str) (h : s.length ≤ k) :
    (padZeros k s).length = k := by
  simp [padZeros]
  omega

theorem allDigits_padZeros (k : Nat) (s : Str) (h : allDigits s = true) :
    allDigits (padZeros k s) = true := by
  rw [padZeros, allDigits_append, h]
  have hrep : allDigits (List.replicate (k - s.length) '0') = true := by
    rw [allDigits, List.all_eq_true]
    intro c hc
    rw [List.eq_of_mem_replicate hc]
    decide
  simp [hrep]

theorem digitsVal_padZeros (k : Nat) (s : Str) :
    digitsVal (padZeros k s) = digitsVal s :=
  digitsVal_replicate_zero (k - s.length) s

/-- The two-digit field printer used inside `datetime_to_ical_str`. -/
theorem pad2_spec (n : Nat) (h : n < 100) :
    ∃ a b, padZeros 2 (natToStr n) = [a, b] ∧ isDigitCh a = true ∧ isDigitCh b = true
      ∧ digitsVal [a, b] = n := by
  have hlen : (padZeros 2 (natToStr n)).length = 2 :=
    length_padZeros 2 _ (length_natToStr_le n 2 (by omega) (by omega))
  have hdig : allDigits (padZeros 2 (natToStr n)) = true :=
    allDigits_padZeros 2 _ (allDigits_natToStr n)
  have hval : digitsVal (padZeros 2 (natToStr n)) = n := by
    rw [digitsVal_padZeros, digitsVal_natToStr]
  obtain ⟨a, b, hab⟩ : ∃ a b, padZeros 2 (natToStr n) = [a, b] := by
    match hx : padZeros 2 (natToStr n), hlen with
    | [a, b], _ => exact ⟨a, b, rfl⟩
  rw [hab] at hdig hval
  have hab2 : isDigitCh a = true ∧ isDigitCh b = true := by
    simpa [allDigits] using hdig
  exact ⟨a, b, hab, hab2.1, hab2.2, hval⟩

/-- The four-digit year printer used inside `datetime_to_ical_str`. -/
theorem pad4_spec (n : Nat) (h : n < 10000) :
    ∃ a b c d, padZeros 4 (natToStr n) = [a, b, c, d]
      ∧ allDigits [a, b, c, d] = true ∧ digitsVal [a, b, c, d] = n := by
  have hlen : (padZeros 4 (natToStr n)).length = 4 :=
    length_padZeros 4 _ (length_natToStr_le n 4 (by omega) (by omega))
  have hdig : allDigits (padZeros 4 (natToStr n)) = true :=
    allDigits_padZeros 4 _ (allDigits_natToStr n)
  have hval : digitsVal (padZeros 4 (natToStr n)) = n := by
    rw [digitsVal_padZeros, digitsVal_natToStr]
  obtain ⟨a, b, c, d, habcd⟩ : ∃ a b c d, padZeros 4 (natToStr n) = [a, b, c, d] := by
    match hx : padZeros 4 (natToStr n), hlen with
    | [a, b, c, d], _ => exact ⟨a, b, c, d, rfl⟩
  rw [habcd] at hdig hval
  exact ⟨a, b, c, d, habcd, hdig, hval⟩

end Taskmaster

namespace Taskmaster

-- ---------------------------------------------------------------------------
-- Validity predicates for the round-trip theorems
-- ---------------------------------------------------------------------------

/-- A calendar date the fixed format can represent and recover: a valid
year/month/day with a four-digit year. -/
def ValidDate (d : Date) : Prop := validYmd d.y d.m d.d = true ∧ d.y ≤ 9999

/-- A timestamp the fixed format can represent and recover. -/
def ValidDateTime (dt : DateTime) : Prop :=
  ValidDate dt.date ∧ dt.hh < 24 ∧ dt.mm < 60 ∧ dt.ss < 60

instance (d : Date) : Decidable (ValidDate d) := by
  unfold ValidDate
  infer_instance

instance (dt : DateTime) : Decidable (ValidDateTime dt) := by
  unfold ValidDateTime
  infer_instance

theorem not_newline_datetime_str (dt : DateTime) :
    '\n' ∉ datetime_to_ical_str dt := by
  intro hm
  rw [datetime_to_ical_str] at hm
  simp only [List.mem_append, List.mem_singleton] at hm
  rcases hm with (((((h | h) | h) | h) | h) | h) | h
  · exact not_newline_mem_of_allDigits _ (allDigits_padZeros 4 _ (allDigits_natToStr _)) h
  · exact not_newline_mem_of_allDigits _ (allDigits_padZeros 2 _ (allDigits_natToStr _)) h
  · exact not_newline_mem_of_allDigits _ (allDigits_padZeros 2 _ (allDigits_natToStr _)) h
  · exact absurd h (by decide)
  · exact not_newline_mem_of_allDigits _ (allDigits_padZeros 2 _ (allDigits_natToStr _)) h
  · exact not_newline_mem_of_allDigits _ (allDigits_padZeros 2 _ (allDigits_natToStr _)) h
  · exact not_newline_mem_of_allDigits _ (allDigits_padZeros 2 _ (allDigits_natToStr _)) h

/-- Parsing the fixed-format rendering of a valid timestamp recovers it. -/
theorem parse_datetime_roundtrip (dt : DateTime) (h : ValidDateTime dt) :
    parseIcalDateTime (datetime_to_ical_str dt) = some dt := by
  obtain ⟨⟨hymd, hy⟩, hhh, hmm, hss⟩ := h
  have hymd2 := hymd
  rw [validYmd] at hymd2
  simp only [Bool.and_eq_true, decide_eq_true_eq] at hymd2
  have hm12 : dt.date.m < 100 := by omega
  have hd31 : dt.date.d < 100 := by
    have hle : daysInMonth dt.date.y dt.date.m ≤ 31 := by
      rw [daysInMonth]
      split
      · split <;> omega
      · split <;> omega
    omega
  obtain ⟨y1, y2, y3, y4, hyeq, hydig, hyval⟩ := pad4_spec dt.date.y (by omega)
  obtain ⟨m1, m2, hmeq, hm1, hm2, hmval⟩ := pad2_spec dt.date.m hm12
  obtain ⟨d1, d2, hdeq, hd1, hd2, hdval⟩ := pad2_spec dt.date.d hd31
  obtain ⟨h1, h2, hheq, hh1, hh2, hhval⟩ := pad2_spec dt.hh (by omega)
  obtain ⟨n1, n2, hneq, hn1, hn2, hnval⟩ := pad2_spec dt.mm (by omega)
  obtain ⟨e1, e2, heeq, he1, he2, heval⟩ := pad2_spec dt.ss (by omega)
  rw [datetime_to_ical_str, hyeq, hmeq, hdeq, hheq, hneq, heeq]
  have hlist :
      ([y1, y2, y3, y4] ++ [m1, m2] ++ [d1, d2] ++ ['T'] ++ [h1, h2] ++ [n1, n2] ++ [e1, e2]
        : Str)
      = [y1, y2, y3, y4, m1, m2, d1, d2, 'T', h1, h2, n1, n2, e1, e2] := by
    simp
  have hysplit : isDigitCh y1 = true ∧ isDigitCh y2 = true ∧ isDigitCh y3 = true
      ∧ isDigitCh y4 = true := by
    simpa [allDigits] using hydig
  have hdigs1 : allDigits [y1, y2, y3, y4, m1, m2, d1, d2] = true := by
    simp [allDigits]
    exact ⟨hysplit.1, hysplit.2.1, hysplit.2.2.1, hysplit.2.2.2, hm1, hm2, hd1, hd2⟩
  have hdigs2 : allDigits [h1, h2, n1, n2, e1, e2] = true := by
    simp [allDigits]
    exact ⟨hh1, hh2, hn1, hn2, he1, he2⟩
  rw [hlist]
  simp [parseIcalDateTime, hdigs1, hdigs2, hyval, hmval, hdval, hhval, hnval, heval,
    hymd, hhh, hmm, hss]

/-- Parsing the decimal rendering of a byte value recovers it. -/
theorem parseU8_natToStr (n : Nat) (h : n ≤ 255) : parseU8 (natToStr n) = some n := by
  obtain ⟨c, rest, hcr⟩ : ∃ c rest, natToStr n = c :: rest := by
    cases hx : natToStr n with
    | nil => exact absurd hx (natToStr_ne_nil n)
    | cons c rest => exact ⟨c, rest, rfl⟩
  have hc : isDigitCh c = true := by
    have hd := allDigits_natToStr n
    rw [hcr, allDigits] at hd
    simp only [List.all_cons, Bool.and_eq_true] at hd
    exact hd.1
  have hcplus : c ≠ '+' := by
    intro hplus
    rw [hplus] at hc
    exact absurd hc (by decide)
  have hdig2 : allDigits (c :: rest) = true := by
    rw [← hcr]
    exact allDigits_natToStr n
  have hval2 : digitsVal (c :: rest) = n := by
    rw [← hcr]
    exact digitsVal_natToStr n
  rw [hcr]
  simp only [parseU8, if_neg hcplus]
  simp [hdig2, hval2, h]

end Taskmaster

namespace Taskmaster

-- ---------------------------------------------------------------------------
-- Lemmas about the color hex encoding
-- ---------------------------------------------------------------------------

theorem hexDigitVal_hexDigitUpper (d : Nat) (h : d < 16) :
    hexDigitVal (hexDigitUpper d) = some d := by
  interval_cases d <;> decide

theorem hexDigitUpper_ne_newline (d : Nat) (h : d < 16) : hexDigitUpper d ≠ '\n' := by
  interval_cases d <;> decide

theorem hexUpperU8_eq_pair (c : Nat) (h16 : 16 ≤ c) (h : c < 256) :
    hexUpperU8 c = [hexDigitUpper (c / 16), hexDigitUpper (c % 16)] := by
  rw [hexUpperU8, if_neg (by omega)]

theorem not_newline_hexUpperU8 (c : Nat) (h : c < 256) : '\n' ∉ hexUpperU8 c := by
  intro hm
  rw [hexUpperU8] at hm
  split at hm
  · rw [List.mem_singleton] at hm
    exact hexDigitUpper_ne_newline c (by omega) hm.symm
  · rw [List.mem_cons, List.mem_singleton] at hm
    rcases hm with hm | hm
    · exact hexDigitUpper_ne_newline (c / 16) (by omega) hm.symm
    · exact hexDigitUpper_ne_newline (c % 16) (by omega) hm.symm

/-- Decoding the unpadded upper-case hex rendering of a color recovers it
exactly when every component needs two digits. -/
theorem rgbFromHexStr_roundtrip (col : Color)
    (hr1 : 16 ≤ col.r) (hr2 : col.r < 256) (hg1 : 16 ≤ col.g) (hg2 : col.g < 256)
    (hb1 : 16 ≤ col.b) (hb2 : col.b < 256) :
    rgbFromHexStr (('#' :: hexUpperU8 col.r) ++ hexUpperU8 col.g ++ hexUpperU8 col.b)
      = some col := by
  rw [hexUpperU8_eq_pair col.r hr1 hr2, hexUpperU8_eq_pair col.g hg1 hg2,
    hexUpperU8_eq_pair col.b hb1 hb2]
  have hlist :
      (('#' :: [hexDigitUpper (col.r / 16), hexDigitUpper (col.r % 16)])
          ++ [hexDigitUpper (col.g / 16), hexDigitUpper (col.g % 16)]
          ++ [hexDigitUpper (col.b / 16), hexDigitUpper (col.b % 16)] : Str)
      = '#' :: [hexDigitUpper (col.r / 16), hexDigitUpper (col.r % 16),
          hexDigitUpper (col.g / 16), hexDigitUpper (col.g % 16),
          hexDigitUpper (col.b / 16), hexDigitUpper (col.b % 16)] := by
    simp
  rw [hlist]
  simp only [rgbFromHexStr, hexDigitVal_hexDigitUpper (col.r / 16) (by omega),
    hexDigitVal_hexDigitUpper (col.r % 16) (by omega),
    hexDigitVal_hexDigitUpper (col.g / 16) (by omega),
    hexDigitVal_hexDigitUpper (col.g % 16) (by omega),
    hexDigitVal_hexDigitUpper (col.b / 16) (by omega),
    hexDigitVal_hexDigitUpper (col.b % 16) (by omega)]
  have hrr : 16 * (col.r / 16) + col.r % 16 = col.r := by omega
  have hgg : 16 * (col.g / 16) + col.g % 16 = col.g := by omega
  have hbb : 16 * (col.b / 16) + col.b % 16 = col.b := by omega
  rw [hrr, hgg, hbb]

-- ---------------------------------------------------------------------------
-- Lemmas about description escaping
-- ---------------------------------------------------------------------------

theorem escapeNewlines_cons (c : Char) (rest : Str) :
    escapeNewlines (c :: rest)
      = (if c = '\n' then ['\\', 'n'] else [c]) ++ escapeNewlines rest := by
  simp [escapeNewlines]

theorem not_newline_escapeNewlines (d : Str) : '\n' ∉ escapeNewlines d := by
  intro hm
  rw [escapeNewlines] at hm
  rcases List.mem_flatMap.mp hm with ⟨c, _, hc⟩
  by_cases hcn : c = '\n'
  · rw [if_pos hcn] at hc
    rw [List.mem_cons, List.mem_singleton] at hc
    rcases hc with h | h <;> exact absurd h (by decide)
  · rw [if_neg hcn] at hc
    exact hcn (List.mem_singleton.mp hc).symm

theorem escapeNewlines_nil_iff (d : Str) : escapeNewlines d = [] ↔ d = [] := by
  cases d with
  | nil => simp [escapeNewlines]
  | cons c rest =>
    constructor
    · intro hx
      rw [escapeNewlines_cons] at hx
      split at hx <;> simp at hx
    · intro hx
      simp at hx

/-- Decoding the escaped rendering of a description recovers it, provided the
description does not itself contain the two-character sequence backslash-n. -/
theorem unescape_escape (d : Str) (h : ¬ ['\\', 'n'] <:+: d) :
    unescapeNewlines (escapeNewlines d) = d := by
  induction d with
  | nil => rfl
  | cons c rest ih =>
    have hrest : ¬ ['\\', 'n'] <:+: rest := fun hi =>
      h (hi.trans (List.suffix_cons c rest).isInfix)
    rw [escapeNewlines_cons]
    by_cases hcn : c = '\n'
    · subst hcn
      rw [if_pos rfl]
      show unescapeNewlines ('\\' :: 'n' :: escapeNewlines rest) = _
      rw [unescapeNewlines, if_pos ⟨rfl, rfl⟩, ih hrest]
    · rw [if_neg hcn]
      show unescapeNewlines (c :: escapeNewlines rest) = _
      cases hesc : escapeNewlines rest with
      | nil =>
        rw [(escapeNewlines_nil_iff rest).mp hesc]
        rfl
      | cons c2 l2 =>
        have hnotesc : ¬ (c = '\\' ∧ c2 = 'n') := by
          rintro ⟨rfl, rfl⟩
          cases rest with
          | nil => simp [escapeNewlines] at hesc
          | cons r0 rrest =>
            rw [escapeNewlines_cons] at hesc
            by_cases hr0 : r0 = '\n'
            · rw [if_pos hr0] at hesc
              simp at hesc
            · rw [if_neg hr0] at hesc
              simp only [List.singleton_append, List.cons.injEq] at hesc
              exact h ⟨[], rrest, by simp [hesc.1]⟩
        rw [unescapeNewlines, if_neg hnotesc, ← hesc, ih hrest]

end Taskmaster

namespace Taskmaster

-- ---------------------------------------------------------------------------
-- Line structure of the encoder output
-- ---------------------------------------------------------------------------

/-- The lines of one VTODO block, without newline terminators. -/
def blockLines (now : DateTime) (t : Task) : List Str :=
  [str "BEGIN:VTODO",
   str "UID:" ++ t.uuid,
   str "CREATED:" ++ datetime_to_ical_str t.created,
   str "LAST-MODIFIED:" ++ datetime_to_ical_str now,
   str "DTSTAMP:" ++ datetime_to_ical_str now,
   str "SUMMARY:" ++ t.summary]
  ++ (match t.due with
      | some due =>
        [str "DUE:" ++ datetime_to_ical_str { date := due, hh := 0, mm := 0, ss := 0 }]
      | none => [])
  ++ (if t.priority ≠ 0 then [str "PRIORITY:" ++ natToStr t.priority] else [])
  ++ (if t.progress ≠ 0 then [str "PERCENT-COMPLETE:" ++ natToStr t.progress] else [])
  ++ [if t.completed then str "STATUS:COMPLETED"
      else str "STATUS:" ++
        (match t.status with
         | TaskStatus.InProgress => str "IN-PROGRESS"
         | TaskStatus.NeedsAction => str "NEEDS-ACTION"
         | TaskStatus.Completed => str "COMPLETED"
         | TaskStatus.Cancelled => str "CANCELLED")]
  ++ (if !t.description.isEmpty then
        [str "DESCRIPTION:" ++ escapeNewlines t.description]
      else [])
  ++ [str "END:VTODO"]

theorem taskBlock_eq_joinLines (now : DateTime) (t : Task) :
    taskBlock now t = joinLines ([] :: blockLines now t) := by
  have hdue : (match t.due with
      | some due =>
        str "DUE:" ++ datetime_to_ical_str { date := due, hh := 0, mm := 0, ss := 0 } ++ ['\n']
      | none => ([] : Str))
      = joinLines (match t.due with
      | some due =>
        [str "DUE:" ++ datetime_to_ical_str { date := due, hh := 0, mm := 0, ss := 0 }]
      | none => []) := by
    cases t.due <;> simp [joinLines]
  have hprio : (if t.priority ≠ 0 then str "PRIORITY:" ++ natToStr t.priority ++ ['\n'] else [])
      = joinLines (if t.priority ≠ 0 then [str "PRIORITY:" ++ natToStr t.priority] else []) := by
    split <;> simp [joinLines]
  have hprog : (if t.progress ≠ 0 then str "PERCENT-COMPLETE:" ++ natToStr t.progress ++ ['\n']
        else [])
      = joinLines (if t.progress ≠ 0 then [str "PERCENT-COMPLETE:" ++ natToStr t.progress]
        else []) := by
    split <;> simp [joinLines]
  have hstat : (if t.completed then str "STATUS:COMPLETED\n"
        else
          str "STATUS:" ++
            (match t.status with
             | TaskStatus.InProgress => str "IN-PROGRESS\n"
             | TaskStatus.NeedsAction => str "NEEDS-ACTION\n"
             | TaskStatus.Completed => str "COMPLETED\n"
             | TaskStatus.Cancelled => str "CANCELLED\n"))
      = joinLines [if t.completed then str "STATUS:COMPLETED"
        else str "STATUS:" ++
          (match t.status with
           | TaskStatus.InProgress => str "IN-PROGRESS"
           | TaskStatus.NeedsAction => str "NEEDS-ACTION"
           | TaskStatus.Completed => str "COMPLETED"
           | TaskStatus.Cancelled => str "CANCELLED")] := by
    cases t.completed <;> cases t.status <;> simp [joinLines, str]
  have hdesc : (if !t.description.isEmpty then
        str "DESCRIPTION:" ++ escapeNewlines t.description ++ ['\n']
      else [])
      = joinLines (if !t.description.isEmpty then
        [str "DESCRIPTION:" ++ escapeNewlines t.description]
      else []) := by
    split <;> simp [joinLines]
  rw [taskBlock, blockLines, hdue, hprio, hprog, hstat, hdesc]
  simp only [joinLines_cons, joinLines_append, joinLines_nil]
  simp [joinLines, str]

theorem flatMap_taskBlock (now : DateTime) (ts : List Task) :
    ts.flatMap (taskBlock now)
      = joinLines (ts.flatMap (fun t => [] :: blockLines now t)) := by
  induction ts with
  | nil => rfl
  | cons t ts ih =>
    rw [List.flatMap_cons, List.flatMap_cons, taskBlock_eq_joinLines, ih, joinLines_append]

/-- The first seven header lines of the encoder output. -/
def headerLines (list : TaskList) : List Str :=
  [str "BEGIN:VCALENDAR",
   str "VERSION:2.0",
   str "CALSCALE:GREGORIAN",
   str "PRODID:-//taskmaster-rs//github.com//",
   str "X-WR-CALNAME:" ++ list.name,
   str "X-APPLE-CALENDAR-COLOR:" ++
     ('#' :: hexUpperU8 list.color.r ++ hexUpperU8 list.color.g ++ hexUpperU8 list.color.b),
   str "REFRESH-INTERVAL;VALUE=DURATION:PT4H"]

/-- The remaining lines of the encoder output: with no tasks the final header
line and the closing line fuse into a single line, because the header is
written without a trailing newline; with tasks, each block opens with its own
leading newline, producing an empty line before every block after the
first. -/
def tailLines (now : DateTime) : List Task → List Str
  | [] => [str "X-PUBLISHED-TTL:PT4HEND:VCALENDAR"]
  | t :: ts =>
    str "X-PUBLISHED-TTL:PT4H"
      :: (blockLines now t ++ ts.flatMap (fun t2 => [] :: blockLines now t2))
      ++ [str "END:VCALENDAR"]

set_option maxRecDepth 4000 in
theorem to_ical_string_eq_joinLines (now : DateTime) (list : TaskList) :
    to_ical_string now list = joinLines (headerLines list ++ tailLines now list.tasks) := by
  rw [to_ical_string, headerLines]
  cases hts : list.tasks with
  | nil =>
    simp [tailLines, joinLines, str]
  | cons t ts =>
    rw [List.flatMap_cons, taskBlock_eq_joinLines, flatMap_taskBlock]
    simp only [tailLines, joinLines_cons, joinLines_append, joinLines_nil]
    simp [joinLines, str]

end Taskmaster

namespace Taskmaster

-- ---------------------------------------------------------------------------
-- Property stream produced by lexing the encoder output
-- ---------------------------------------------------------------------------

theorem parseContentLine_value (nm v : Str) (hc : ':' ∉ nm) (hs : ∀ c ∈ nm, c ≠ ';')
    (hv : v ≠ []) :
    parseContentLine (nm ++ ':' :: v) = PropLine.prop { name := nm, value := some v } := by
  rw [parseContentLine_split nm v hc]
  have ht : nm.takeWhile (fun c => c ≠ ';') = nm :=
    List.takeWhile_eq_self_iff.mpr (by simpa using hs)
  rw [ht, if_neg (by simpa using hv)]

/-- The property records of one encoded VTODO block, in emission order. -/
def taskProps (now : DateTime) (t : Task) : List PropLine :=
  [PropLine.prop ⟨str "BEGIN", some (str "VTODO")⟩,
   PropLine.prop ⟨str "UID", some t.uuid⟩,
   PropLine.prop ⟨str "CREATED", some (datetime_to_ical_str t.created)⟩,
   PropLine.prop ⟨str "LAST-MODIFIED", some (datetime_to_ical_str now)⟩,
   PropLine.prop ⟨str "DTSTAMP", some (datetime_to_ical_str now)⟩,
   PropLine.prop ⟨str "SUMMARY", some t.summary⟩]
  ++ (match t.due with
      | some due =>
        [PropLine.prop ⟨str "DUE",
          some (datetime_to_ical_str { date := due, hh := 0, mm := 0, ss := 0 })⟩]
      | none => [])
  ++ (if t.priority ≠ 0 then [PropLine.prop ⟨str "PRIORITY", some (natToStr t.priority)⟩]
      else [])
  ++ (if t.progress ≠ 0 then
        [PropLine.prop ⟨str "PERCENT-COMPLETE", some (natToStr t.progress)⟩]
      else [])
  ++ [PropLine.prop ⟨str "STATUS",
        some (if t.completed then str "COMPLETED"
          else match t.status with
            | TaskStatus.InProgress => str "IN-PROGRESS"
            | TaskStatus.NeedsAction => str "NEEDS-ACTION"
            | TaskStatus.Completed => str "COMPLETED"
            | TaskStatus.Cancelled => str "CANCELLED")⟩]
  ++ (if !t.description.isEmpty then
        [PropLine.prop ⟨str "DESCRIPTION", some (escapeNewlines t.description)⟩]
      else [])
  ++ [PropLine.prop ⟨str "END", some (str "VTODO")⟩]

theorem datetime_to_ical_str_ne_nil (dt : DateTime) : datetime_to_ical_str dt ≠ [] := by
  rw [datetime_to_ical_str]
  intro h
  simp at h

theorem blockLines_nonempty (now : DateTime) (t : Task) :
    ∀ l ∈ blockLines now t, (!l.isEmpty) = true := by
  intro l hl
  rw [blockLines] at hl
  simp only [List.append_assoc, List.mem_append, List.mem_cons, List.mem_singleton,
    List.not_mem_nil, or_false, false_or] at hl
  rcases hl with (h | h | h | h | h | h) | h | h | h | h | h | h
  · subst h; decide
  · subst h; simp [str]
  · subst h; simp [str]
  · subst h; simp [str]
  · subst h; simp [str]
  · subst h; simp [str]
  · split at h
    · rw [List.mem_singleton] at h
      subst h; simp [str]
    · exact absurd h (List.not_mem_nil l)
  · split at h
    · rw [List.mem_singleton] at h
      subst h; simp [str]
    · exact absurd h (List.not_mem_nil l)
  · split at h
    · rw [List.mem_singleton] at h
      subst h; simp [str]
    · exact absurd h (List.not_mem_nil l)
  · subst h
    split <;> simp [str]
  · split at h
    · rw [List.mem_singleton] at h
      subst h; simp [str]
    · exact absurd h (List.not_mem_nil l)
  · subst h; decide

theorem lex_blockLines (now : DateTime) (t : Task) (hsum : t.summary ≠ [])
    (huuid : t.uuid ≠ []) :
    ((blockLines now t).filter (fun l => !l.isEmpty)).map parseContentLine = taskProps now t := by
  rw [List.filter_eq_self.mpr (blockLines_nonempty now t)]
  have hBEG : parseContentLine (str "BEGIN:VTODO")
      = PropLine.prop ⟨str "BEGIN", some (str "VTODO")⟩ := by decide
  have hEND : parseContentLine (str "END:VTODO")
      = PropLine.prop ⟨str "END", some (str "VTODO")⟩ := by decide
  have hUID : parseContentLine (str "UID:" ++ t.uuid)
      = PropLine.prop ⟨str "UID", some t.uuid⟩ :=
    parseContentLine_value (str "UID") t.uuid (by decide) (by decide) huuid
  have hCRE : parseContentLine (str "CREATED:" ++ datetime_to_ical_str t.created)
      = PropLine.prop ⟨str "CREATED", some (datetime_to_ical_str t.created)⟩ :=
    parseContentLine_value (str "CREATED") _ (by decide) (by decide)
      (datetime_to_ical_str_ne_nil _)
  have hLM : parseContentLine (str "LAST-MODIFIED:" ++ datetime_to_ical_str now)
      = PropLine.prop ⟨str "LAST-MODIFIED", some (datetime_to_ical_str now)⟩ :=
    parseContentLine_value (str "LAST-MODIFIED") _ (by decide) (by decide)
      (datetime_to_ical_str_ne_nil _)
  have hDTS : parseContentLine (str "DTSTAMP:" ++ datetime_to_ical_str now)
      = PropLine.prop ⟨str "DTSTAMP", some (datetime_to_ical_str now)⟩ :=
    parseContentLine_value (str "DTSTAMP") _ (by decide) (by decide)
      (datetime_to_ical_str_ne_nil _)
  have hSUM : parseContentLine (str "SUMMARY:" ++ t.summary)
      = PropLine.prop ⟨str "SUMMARY", some t.summary⟩ :=
    parseContentLine_value (str "SUMMARY") t.summary (by decide) (by decide) hsum
  have hSTAT : parseContentLine
      (if t.completed then str "STATUS:COMPLETED"
        else str "STATUS:" ++
          (match t.status with
           | TaskStatus.InProgress => str "IN-PROGRESS"
           | TaskStatus.NeedsAction => str "NEEDS-ACTION"
           | TaskStatus.Completed => str "COMPLETED"
           | TaskStatus.Cancelled => str "CANCELLED"))
      = PropLine.prop ⟨str "STATUS",
          some (if t.completed then str "COMPLETED"
            else match t.status with
              | TaskStatus.InProgress => str "IN-PROGRESS"
              | TaskStatus.NeedsAction => str "NEEDS-ACTION"
              | TaskStatus.Completed => str "COMPLETED"
              | TaskStatus.Cancelled => str "CANCELLED")⟩ := by
    cases t.completed <;> cases t.status <;> decide
  have hdueC : (match t.due with
      | some due =>
        [str "DUE:" ++ datetime_to_ical_str { date := due, hh := 0, mm := 0, ss := 0 }]
      | none => ([] : List Str)).map parseContentLine
      = (match t.due with
      | some due =>
        [PropLine.prop ⟨str "DUE",
          some (datetime_to_ical_str { date := due, hh := 0, mm := 0, ss := 0 })⟩]
      | none => []) := by
    cases t.due with
    | none => rfl
    | some due =>
      have hDUE : parseContentLine
          (str "DUE:" ++ datetime_to_ical_str { date := due, hh := 0, mm := 0, ss := 0 })
          = PropLine.prop ⟨str "DUE",
              some (datetime_to_ical_str { date := due, hh := 0, mm := 0, ss := 0 })⟩ :=
        parseContentLine_value (str "DUE") _ (by decide) (by decide)
          (datetime_to_ical_str_ne_nil _)
      rw [List.map_cons, List.map_nil, hDUE]
  have hprioC : (if t.priority ≠ 0 then [str "PRIORITY:" ++ natToStr t.priority]
      else ([] : List Str)).map parseContentLine
      = (if t.priority ≠ 0 then [PropLine.prop ⟨str "PRIORITY", some (natToStr t.priority)⟩]
      else []) := by
    split
    · have hPRI : parseContentLine (str "PRIORITY:" ++ natToStr t.priority)
          = PropLine.prop ⟨str "PRIORITY", some (natToStr t.priority)⟩ :=
        parseContentLine_value (str "PRIORITY") _ (by decide) (by decide) (natToStr_ne_nil _)
      rw [List.map_cons, List.map_nil, hPRI]
    · rfl
  have hprogC : (if t.progress ≠ 0 then [str "PERCENT-COMPLETE:" ++ natToStr t.progress]
      else ([] : List Str)).map parseContentLine
      = (if t.progress ≠ 0 then
        [PropLine.prop ⟨str "PERCENT-COMPLETE", some (natToStr t.progress)⟩]
      else []) := by
    split
    · have hPCT : parseContentLine (str "PERCENT-COMPLETE:" ++ natToStr t.progress)
          = PropLine.prop ⟨str "PERCENT-COMPLETE", some (natToStr t.progress)⟩ :=
        parseContentLine_value (str "PERCENT-COMPLETE") _ (by decide) (by decide)
          (natToStr_ne_nil _)
      rw [List.map_cons, List.map_nil, hPCT]
    · rfl
  have hdescC : (if !t.description.isEmpty then
        [str "DESCRIPTION:" ++ escapeNewlines t.description]
      else ([] : List Str)).map parseContentLine
      = (if !t.description.isEmpty then
        [PropLine.prop ⟨str "DESCRIPTION", some (escapeNewlines t.description)⟩]
      else []) := by
    split
    · rename_i hde
      have hdne : escapeNewlines t.description ≠ [] := by
        rw [Ne, escapeNewlines_nil_iff]
        intro hnil
        rw [hnil] at hde
        simp at hde
      have hDSC : parseContentLine (str "DESCRIPTION:" ++ escapeNewlines t.description)
          = PropLine.prop ⟨str "DESCRIPTION", some (escapeNewlines t.description)⟩ :=
        parseContentLine_value (str "DESCRIPTION") _ (by decide) (by decide) hdne
      rw [List.map_cons, List.map_nil, hDSC]
    · rfl
  rw [blockLines, taskProps]
  simp only [List.map_append, List.map_cons, List.map_nil]
  rw [hBEG, hUID, hCRE, hLM, hDTS, hSUM, hSTAT, hEND, hdueC, hprioC, hprogC, hdescC]

/-- Field values a task must have for the codec round trip: nonempty
single-line summary and uuid, a description free of carriage returns and of
literal backslash-n sequences, byte-ranged progress and priority, and
representable dates. -/
def ValidTask (t : Task) : Prop :=
  t.summary ≠ [] ∧ '\n' ∉ t.summary ∧ '\r' ∉ t.summary
  ∧ '\r' ∉ t.description ∧ ¬ ['\\', 'n'] <:+: t.description
  ∧ t.uuid ≠ [] ∧ '\n' ∉ t.uuid ∧ '\r' ∉ t.uuid
  ∧ t.progress < 256 ∧ t.priority < 256
  ∧ (∀ d, t.due = some d → ValidDate d) ∧ ValidDateTime t.created

instance (t : Task) : Decidable (ValidTask t) := by
  unfold ValidTask
  have : Decidable (∀ d, t.due = some d → ValidDate d) := by
    cases hd : t.due with
    | none => exact isTrue (by simp)
    | some d0 =>
      cases hvd : decide (ValidDate d0) with
      | true => exact isTrue (by simp [of_decide_eq_true hvd])
      | false =>
        exact isFalse (by
          intro hall
          exact absurd (decide_eq_true (hall d0 rfl)) (by simp [hvd]))
  infer_instance

/-- List-level validity for the round trip: nonempty single-line name, color
components between 16 and 255 (so their hex rendering has two digits), and
valid tasks. -/
def ValidTaskList (L : TaskList) : Prop :=
  L.name ≠ [] ∧ '\n' ∉ L.name ∧ '\r' ∉ L.name
  ∧ 16 ≤ L.color.r ∧ L.color.r < 256 ∧ 16 ≤ L.color.g ∧ L.color.g < 256
  ∧ 16 ≤ L.color.b ∧ L.color.b < 256
  ∧ ∀ t ∈ L.tasks, ValidTask t

instance (L : TaskList) : Decidable (ValidTaskList L) := by
  unfold ValidTaskList
  infer_instance

theorem blockLines_no_newline (now : DateTime) (t : Task) (hv : ValidTask t) :
    ∀ l ∈ blockLines now t, '\n' ∉ l := by
  obtain ⟨hs1, hs2, _, _, _, hu1, hu2, _, _, _, _, _⟩ := hv
  intro l hl
  rw [blockLines] at hl
  simp only [List.append_assoc, List.mem_append, List.mem_cons, List.mem_singleton,
    List.not_mem_nil, or_false, false_or] at hl
  rcases hl with (h | h | h | h | h | h) | h | h | h | h | h | h
  · subst h; decide
  · subst h
    intro hm
    rcases List.mem_append.mp hm with hm | hm
    · exact absurd hm (by decide)
    · exact hu2 hm
  · subst h
    intro hm
    rcases List.mem_append.mp hm with hm | hm
    · exact absurd hm (by decide)
    · exact not_newline_datetime_str _ hm
  · subst h
    intro hm
    rcases List.mem_append.mp hm with hm | hm
    · exact absurd hm (by decide)
    · exact not_newline_datetime_str _ hm
  · subst h
    intro hm
    rcases List.mem_append.mp hm with hm | hm
    · exact absurd hm (by decide)
    · exact not_newline_datetime_str _ hm
  · subst h
    intro hm
    rcases List.mem_append.mp hm with hm | hm
    · exact absurd hm (by decide)
    · exact hs2 hm
  · split at h
    · rw [List.mem_singleton] at h
      subst h
      intro hm
      rcases List.mem_append.mp hm with hm | hm
      · exact absurd hm (by decide)
      · exact not_newline_datetime_str _ hm
    · exact absurd h (List.not_mem_nil l)
  · split at h
    · rw [List.mem_singleton] at h
      subst h
      intro hm
      rcases List.mem_append.mp hm with hm | hm
      · exact absurd hm (by decide)
      · exact not_newline_mem_of_allDigits _ (allDigits_natToStr _) hm
    · exact absurd h (List.not_mem_nil l)
  · split at h
    · rw [List.mem_singleton] at h
      subst h
      intro hm
      rcases List.mem_append.mp hm with hm | hm
      · exact absurd hm (by decide)
      · exact not_newline_mem_of_allDigits _ (allDigits_natToStr _) hm
    · exact absurd h (List.not_mem_nil l)
  · subst h
    split
    · decide
    · intro hm
      rcases List.mem_append.mp hm with hm | hm
      · exact absurd hm (by decide)
      · split at hm <;> exact absurd hm (by decide)
  · split at h
    · rw [List.mem_singleton] at h
      subst h
      intro hm
      rcases List.mem_append.mp hm with hm | hm
      · exact absurd hm (by decide)
      · exact not_newline_escapeNewlines _ hm
    · exact absurd h (List.not_mem_nil l)
  · subst h; decide

/-- The property records of the encoded header. -/
def headerProps (L : TaskList) : List PropLine :=
  [PropLine.prop ⟨str "BEGIN", some (str "VCALENDAR")⟩,
   PropLine.prop ⟨str "VERSION", some (str "2.0")⟩,
   PropLine.prop ⟨str "CALSCALE", some (str "GREGORIAN")⟩,
   PropLine.prop ⟨str "PRODID", some (str "-//taskmaster-rs//github.com//")⟩,
   PropLine.prop ⟨str "X-WR-CALNAME", some L.name⟩,
   PropLine.prop ⟨str "X-APPLE-CALENDAR-COLOR",
     some ('#' :: hexUpperU8 L.color.r ++ hexUpperU8 L.color.g ++ hexUpperU8 L.color.b)⟩,
   PropLine.prop ⟨str "REFRESH-INTERVAL", some (str "PT4H")⟩]

/-- The property records after the header: the fused final line when there
are no tasks, otherwise one record list per block. -/
def tailProps (now : DateTime) : List Task → List PropLine
  | [] => [PropLine.prop ⟨str "X-PUBLISHED-TTL", some (str "PT4HEND:VCALENDAR")⟩]
  | t :: ts =>
    PropLine.prop ⟨str "X-PUBLISHED-TTL", some (str "PT4H")⟩
      :: (taskProps now t ++ ts.flatMap (taskProps now)
        ++ [PropLine.prop ⟨str "END", some (str "VCALENDAR")⟩])

theorem lex_headerLines (L : TaskList) (hname : L.name ≠ []) :
    ((headerLines L).filter (fun l => !l.isEmpty)).map parseContentLine = headerProps L := by
  have hCAL : parseContentLine (str "X-WR-CALNAME:" ++ L.name)
      = PropLine.prop ⟨str "X-WR-CALNAME", some L.name⟩ :=
    parseContentLine_value (str "X-WR-CALNAME") L.name (by decide) (by decide) hname
  have hCOL : parseContentLine (str "X-APPLE-CALENDAR-COLOR:" ++
        ('#' :: hexUpperU8 L.color.r ++ hexUpperU8 L.color.g ++ hexUpperU8 L.color.b))
      = PropLine.prop ⟨str "X-APPLE-CALENDAR-COLOR",
          some ('#' :: hexUpperU8 L.color.r ++ hexUpperU8 L.color.g ++ hexUpperU8 L.color.b)⟩ :=
    parseContentLine_value (str "X-APPLE-CALENDAR-COLOR") _ (by decide) (by decide) (by simp)
  have h1 : parseContentLine (str "BEGIN:VCALENDAR")
      = PropLine.prop ⟨str "BEGIN", some (str "VCALENDAR")⟩ := by decide
  have h2 : parseContentLine (str "VERSION:2.0")
      = PropLine.prop ⟨str "VERSION", some (str "2.0")⟩ := by decide
  have h3 : parseContentLine (str "CALSCALE:GREGORIAN")
      = PropLine.prop ⟨str "CALSCALE", some (str "GREGORIAN")⟩ := by decide
  have h4 : parseContentLine (str "PRODID:-//taskmaster-rs//github.com//")
      = PropLine.prop ⟨str "PRODID", some (str "-//taskmaster-rs//github.com//")⟩ := by decide
  have h5 : parseContentLine (str "REFRESH-INTERVAL;VALUE=DURATION:PT4H")
      = PropLine.prop ⟨str "REFRESH-INTERVAL", some (str "PT4H")⟩ := by decide
  rw [headerLines, headerProps]
  simp only [List.filter_cons, List.filter_nil, List.map_cons, List.map_nil]
  rw [if_pos (by decide), if_pos (by decide), if_pos (by decide), if_pos (by decide),
    if_pos (by simp [str]), if_pos (by simp [str]), if_pos (by decide)]
  simp only [List.map_cons, List.map_nil]
  rw [hCAL, hCOL, h1, h2, h3, h4, h5]

theorem headerLines_no_newline (L : TaskList) (hn : '\n' ∉ L.name)
    (hr : L.color.r < 256) (hg : L.color.g < 256) (hb : L.color.b < 256) :
    ∀ l ∈ headerLines L, '\n' ∉ l := by
  intro l hl
  rw [headerLines] at hl
  simp only [List.mem_cons, List.not_mem_nil, or_false] at hl
  rcases hl with h | h | h | h | h | h | h
  · subst h; decide
  · subst h; decide
  · subst h; decide
  · subst h; decide
  · subst h
    intro hm
    rcases List.mem_append.mp hm with hm | hm
    · exact absurd hm (by decide)
    · exact hn hm
  · subst h
    intro hm
    rcases List.mem_append.mp hm with hm | hm
    · exact absurd hm (by decide)
    · rcases List.mem_cons.mp hm with hm | hm
      · exact absurd hm (by decide)
      · rcases List.mem_append.mp hm with hm | hm
        · rcases List.mem_append.mp hm with hm | hm
          · exact not_newline_hexUpperU8 _ hr hm
          · exact not_newline_hexUpperU8 _ hg hm
        · exact not_newline_hexUpperU8 _ hb hm
  · subst h; decide

theorem tailLines_no_newline (now : DateTime) (ts : List Task)
    (h : ∀ t ∈ ts, ValidTask t) :
    ∀ l ∈ tailLines now ts, '\n' ∉ l := by
  intro l hl
  cases ts with
  | nil =>
    rw [tailLines] at hl
    simp only [List.mem_singleton] at hl
    subst hl; decide
  | cons t ts =>
    rw [tailLines] at hl
    rcases List.mem_cons.mp hl with h1 | h1
    · subst h1; decide
    · rcases List.mem_append.mp h1 with h2 | h2
      · rcases List.mem_append.mp h2 with h3 | h3
        · exact blockLines_no_newline now t (h t (List.mem_cons_self t ts)) l h3
        · rcases List.mem_flatMap.mp h3 with ⟨t2, ht2, hmem⟩
          rcases List.mem_cons.mp hmem with h4 | h4
          · subst h4; simp
          · exact blockLines_no_newline now t2
              (h t2 (List.mem_cons_of_mem t ht2)) l h4
      · rw [List.mem_singleton] at h2
        subst h2; decide

theorem lex_sep_blocks (now : DateTime) (ts : List Task) (h : ∀ t ∈ ts, ValidTask t) :
    ((ts.flatMap (fun t2 => [] :: blockLines now t2)).filter
        (fun l => !l.isEmpty)).map parseContentLine
      = ts.flatMap (taskProps now) := by
  induction ts with
  | nil => rfl
  | cons t ts ih =>
    rw [List.flatMap_cons, List.flatMap_cons, List.filter_append, List.map_append]
    have hvt := h t (List.mem_cons_self t ts)
    rw [List.filter_cons, if_neg (by decide)]
    rw [lex_blockLines now t hvt.1 hvt.2.2.2.2.2.1]
    rw [ih (fun t2 ht2 => h t2 (List.mem_cons_of_mem t ht2))]

/-- Lexing the encoder output yields the expected property stream. -/
theorem lexIcal_encode (now : DateTime) (L : TaskList) (hv : ValidTaskList L) :
    lexIcal (to_ical_string now L) = headerProps L ++ tailProps now L.tasks := by
  obtain ⟨hn1, hn2, hn3, hcr1, hcr2, hcg1, hcg2, hcb1, hcb2, htasks⟩ := hv
  have hnl : ∀ l ∈ headerLines L ++ tailLines now L.tasks, '\n' ∉ l := by
    intro l hl
    rcases List.mem_append.mp hl with h | h
    · exact headerLines_no_newline L hn2 hcr2 hcg2 hcb2 l h
    · exact tailLines_no_newline now L.tasks htasks l h
  rw [to_ical_string_eq_joinLines, lexIcal_joinLines _ hnl, List.filter_append,
    List.map_append]
  congr 1
  · exact lex_headerLines L hn1
  · cases hts : L.tasks with
    | nil =>
      rw [tailLines, tailProps]
      decide
    | cons t ts =>
      have hvt : ValidTask t := htasks t (hts ▸ List.mem_cons_self t ts)
      rw [tailLines, tailProps]
      rw [List.filter_append, List.map_append]
      rw [List.filter_cons, if_pos (by decide), List.map_cons]
      rw [List.filter_append, List.map_append]
      rw [lex_blockLines now t hvt.1 hvt.2.2.2.2.2.1]
      rw [lex_sep_blocks now ts (fun t2 ht2 => htasks t2 (hts ▸ List.mem_cons_of_mem t ht2))]
      have hXP : parseContentLine (str "X-PUBLISHED-TTL:PT4H")
          = PropLine.prop ⟨str "X-PUBLISHED-TTL", some (str "PT4H")⟩ := by decide
      have hEC : (List.filter (fun l => !l.isEmpty) [str "END:VCALENDAR"]).map parseContentLine
          = [PropLine.prop ⟨str "END", some (str "VCALENDAR")⟩] := by decide
      rw [hXP, hEC]
      simp [List.append_assoc]


-- ---------------------------------------------------------------------------
-- Running the decoder over the property stream
-- ---------------------------------------------------------------------------

/-- The image of a task after one encode-decode cycle: the listed fields
survive, the uuid is freshly generated, the status precedence rule folds
`completed` into the status line, and the transient ui flag resets. -/
def decodedTask (u : Str) (t : Task) : Task :=
  { summary := t.summary
    completed := t.completed || decide (t.status = TaskStatus.Completed)
    description := t.description
    progress := t.progress
    priority := t.priority
    status := if t.completed then TaskStatus.Completed else t.status
    due := t.due
    created := t.created
    show_modal := false
    uuid := u }

theorem runProps_append (now : DateTime) (fresh : Nat → Str) (s : DecState)
    (a b : List PropLine) :
    runProps now fresh s (a ++ b)
      = match runProps now fresh s a with
        | StepResult.cont s' => runProps now fresh s' b
        | r => r := by
  induction a generalizing s with
  | nil => rfl
  | cons p rest ih =>
    rw [List.cons_append, runProps, runProps]
    cases step now fresh s p with
    | cont s' => exact ih s'
    | err e => rfl
    | panicked => rfl

theorem runProps_cont_cons (now : DateTime) (fresh : Nat → Str) (s s' : DecState)
    (p : PropLine) (rest : List PropLine) (h : step now fresh s p = StepResult.cont s') :
    runProps now fresh s (p :: rest) = runProps now fresh s' rest := by
  rw [runProps, h]

theorem set_concat (l : List Task) (x y : Task) : (l ++ [x]).set l.length y = l ++ [y] := by
  rw [List.set_append_right _ _ (le_refl _)]
  simp

theorem setTask_concat (nm : Str) (col : Color) (l : List Task) (x : Task) (f : Task → Task) :
    setTask ⟨nm, col, l ++ [x], l.length⟩ f = StepResult.cont ⟨nm, col, l ++ [f x], l.length⟩ := by
  rw [setTask, dif_pos (by simp)]
  congr 1
  simp [set_concat]

theorem step_novalue (now : DateTime) (fresh : Nat → Str) (s : DecState) (nm : Str) :
    step now fresh s (PropLine.prop ⟨nm, none⟩) = StepResult.err ParseFromFileError.InvalidField :=
  rfl

theorem step_malformed (now : DateTime) (fresh : Nat → Str) (s : DecState) :
    step now fresh s PropLine.malformed = StepResult.err ParseFromFileError.InvalidFile :=
  rfl

/-- Any property whose name is none of the recognised ones falls through the
whole dispatch and is ignored. -/
theorem step_other (now : DateTime) (fresh : Nat → Str) (s : DecState) (nm v : Str)
    (h1 : nm ≠ str "X-WR-CALNAME") (h2 : nm ≠ str "X-APPLE-CALENDAR-COLOR")
    (h3 : nm ≠ str "BEGIN") (h4 : nm ≠ str "SUMMARY") (h5 : nm ≠ str "DUE")
    (h6 : nm ≠ str "PRIORITY") (h7 : nm ≠ str "PERCENT-COMPLETE") (h8 : nm ≠ str "STATUS")
    (h9 : nm ≠ str "DESCRIPTION") (h10 : nm ≠ str "END") (h11 : nm ≠ str "CREATED") :
    step now fresh s (PropLine.prop ⟨nm, some v⟩) = StepResult.cont s := by
  simp only [step, stepNamed]
  rw [if_neg h1, if_neg h2, if_neg h3, if_neg h4, if_neg h5, if_neg h6, if_neg h7,
    if_neg h8, if_neg h9, if_neg h10, if_neg h11]

theorem step_version (now : DateTime) (fresh : Nat → Str) (s : DecState) (v : Str) :
    step now fresh s (PropLine.prop ⟨str "VERSION", some v⟩) = StepResult.cont s :=
  step_other now fresh s _ v (by decide) (by decide) (by decide) (by decide) (by decide)
    (by decide) (by decide) (by decide) (by decide) (by decide) (by decide)

theorem step_calscale (now : DateTime) (fresh : Nat → Str) (s : DecState) (v : Str) :
    step now fresh s (PropLine.prop ⟨str "CALSCALE", some v⟩) = StepResult.cont s :=
  step_other now fresh s _ v (by decide) (by decide) (by decide) (by decide) (by decide)
    (by decide) (by decide) (by decide) (by decide) (by decide) (by decide)

theorem step_prodid (now : DateTime) (fresh : Nat → Str) (s : DecState) (v : Str) :
    step now fresh s (PropLine.prop ⟨str "PRODID", some v⟩) = StepResult.cont s :=
  step_other now fresh s _ v (by decide) (by decide) (by decide) (by decide) (by decide)
    (by decide) (by decide) (by decide) (by decide) (by decide) (by decide)

theorem step_refresh (now : DateTime) (fresh : Nat → Str) (s : DecState) (v : Str) :
    step now fresh s (PropLine.prop ⟨str "REFRESH-INTERVAL", some v⟩) = StepResult.cont s :=
  step_other now fresh s _ v (by decide) (by decide) (by decide) (by decide) (by decide)
    (by decide) (by decide) (by decide) (by decide) (by decide) (by decide)

theorem step_published (now : DateTime) (fresh : Nat → Str) (s : DecState) (v : Str) :
    step now fresh s (PropLine.prop ⟨str "X-PUBLISHED-TTL", some v⟩) = StepResult.cont s :=
  step_other now fresh s _ v (by decide) (by decide) (by decide) (by decide) (by decide)
    (by decide) (by decide) (by decide) (by decide) (by decide) (by decide)

theorem step_uid (now : DateTime) (fresh : Nat → Str) (s : DecState) (v : Str) :
    step now fresh s (PropLine.prop ⟨str "UID", some v⟩) = StepResult.cont s :=
  step_other now fresh s _ v (by decide) (by decide) (by decide) (by decide) (by decide)
    (by decide) (by decide) (by decide) (by decide) (by decide) (by decide)

theorem step_lastmodified (now : DateTime) (fresh : Nat → Str) (s : DecState) (v : Str) :
    step now fresh s (PropLine.prop ⟨str "LAST-MODIFIED", some v⟩) = StepResult.cont s :=
  step_other now fresh s _ v (by decide) (by decide) (by decide) (by decide) (by decide)
    (by decide) (by decide) (by decide) (by decide) (by decide) (by decide)

theorem step_dtstamp (now : DateTime) (fresh : Nat → Str) (s : DecState) (v : Str) :
    step now fresh s (PropLine.prop ⟨str "DTSTAMP", some v⟩) = StepResult.cont s :=
  step_other now fresh s _ v (by decide) (by decide) (by decide) (by decide) (by decide)
    (by decide) (by decide) (by decide) (by decide) (by decide) (by decide)

theorem step_calname (now : DateTime) (fresh : Nat → Str) (s : DecState) (v : Str) :
    step now fresh s (PropLine.prop ⟨str "X-WR-CALNAME", some v⟩)
      = StepResult.cont { s with name := v } := by
  simp only [step, stepNamed]
  rw [if_pos trivial]

theorem step_color_some (now : DateTime) (fresh : Nat → Str) (s : DecState) (v : Str)
    (c : Color) (hc : rgbFromHexStr v = some c) :
    step now fresh s (PropLine.prop ⟨str "X-APPLE-CALENDAR-COLOR", some v⟩)
      = StepResult.cont { s with color := c } := by
  simp only [step, stepNamed]
  rw [if_neg (by decide), if_pos trivial, hc]

theorem step_begin_vcalendar (now : DateTime) (fresh : Nat → Str) (s : DecState) :
    step now fresh s (PropLine.prop ⟨str "BEGIN", some (str "VCALENDAR")⟩)
      = StepResult.cont s := by
  simp only [step, stepNamed]
  rw [if_neg (by decide), if_neg (by decide), if_pos trivial, if_neg (by decide), if_pos trivial]

theorem step_begin_vtodo (now : DateTime) (fresh : Nat → Str) (s : DecState) :
    step now fresh s (PropLine.prop ⟨str "BEGIN", some (str "VTODO")⟩)
      = StepResult.cont
        { s with tasks := s.tasks ++ [Task.defaultTask now (fresh s.tasks.length)] } := by
  simp only [step, stepNamed]
  rw [if_neg (by decide), if_neg (by decide), if_pos trivial, if_pos trivial]

theorem step_end_vtodo (now : DateTime) (fresh : Nat → Str) (s : DecState) :
    step now fresh s (PropLine.prop ⟨str "END", some (str "VTODO")⟩)
      = StepResult.cont { s with task_counter := s.task_counter + 1 } := by
  simp only [step, stepNamed]
  rw [if_neg (by decide), if_neg (by decide), if_neg (by decide), if_neg (by decide),
    if_neg (by decide), if_neg (by decide), if_neg (by decide), if_neg (by decide),
    if_neg (by decide), if_pos trivial, if_pos trivial]

theorem step_end_vcalendar (now : DateTime) (fresh : Nat → Str) (s : DecState) :
    step now fresh s (PropLine.prop ⟨str "END", some (str "VCALENDAR")⟩)
      = StepResult.cont s := by
  simp only [step, stepNamed]
  rw [if_neg (by decide), if_neg (by decide), if_neg (by decide), if_neg (by decide),
    if_neg (by decide), if_neg (by decide), if_neg (by decide), if_neg (by decide),
    if_neg (by decide), if_pos trivial, if_neg (by decide)]

end Taskmaster

namespace Taskmaster

theorem step_summary_at (now : DateTime) (fresh : Nat → Str) (nm : Str) (col : Color)
    (l : List Task) (x : Task) (v : Str) :
    step now fresh ⟨nm, col, l ++ [x], l.length⟩ (PropLine.prop ⟨str "SUMMARY", some v⟩)
      = StepResult.cont ⟨nm, col, l ++ [{ x with summary := v }], l.length⟩ := by
  simp only [step, stepNamed]
  rw [if_neg (by decide), if_neg (by decide), if_neg (by decide), if_pos trivial]
  exact setTask_concat nm col l x _

theorem step_due_at (now : DateTime) (fresh : Nat → Str) (nm : Str) (col : Color)
    (l : List Task) (x : Task) (v : Str) (dtv : DateTime)
    (hv : parseIcalDateTime v = some dtv) :
    step now fresh ⟨nm, col, l ++ [x], l.length⟩ (PropLine.prop ⟨str "DUE", some v⟩)
      = StepResult.cont ⟨nm, col, l ++ [{ x with due := some dtv.date }], l.length⟩ := by
  simp only [step, stepNamed]
  rw [if_neg (by decide), if_neg (by decide), if_neg (by decide), if_neg (by decide),
    if_pos trivial, hv]
  exact setTask_concat nm col l x _

theorem step_priority_at (now : DateTime) (fresh : Nat → Str) (nm : Str) (col : Color)
    (l : List Task) (x : Task) (v : Str) (n : Nat) (hv : parseU8 v = some n) :
    step now fresh ⟨nm, col, l ++ [x], l.length⟩ (PropLine.prop ⟨str "PRIORITY", some v⟩)
      = StepResult.cont ⟨nm, col, l ++ [{ x with priority := n }], l.length⟩ := by
  simp only [step, stepNamed]
  rw [if_neg (by decide), if_neg (by decide), if_neg (by decide), if_neg (by decide),
    if_neg (by decide), if_pos trivial, hv]
  exact setTask_concat nm col l x _

theorem step_percent_at (now : DateTime) (fresh : Nat → Str) (nm : Str) (col : Color)
    (l : List Task) (x : Task) (v : Str) (n : Nat) (hv : parseU8 v = some n) :
    step now fresh ⟨nm, col, l ++ [x], l.length⟩
        (PropLine.prop ⟨str "PERCENT-COMPLETE", some v⟩)
      = StepResult.cont ⟨nm, col, l ++ [{ x with progress := n }], l.length⟩ := by
  simp only [step, stepNamed]
  rw [if_neg (by decide), if_neg (by decide), if_neg (by decide), if_neg (by decide),
    if_neg (by decide), if_neg (by decide), if_pos trivial, hv]
  exact setTask_concat nm col l x _

theorem step_description_at (now : DateTime) (fresh : Nat → Str) (nm : Str) (col : Color)
    (l : List Task) (x : Task) (v : Str) :
    step now fresh ⟨nm, col, l ++ [x], l.length⟩ (PropLine.prop ⟨str "DESCRIPTION", some v⟩)
      = StepResult.cont
          ⟨nm, col, l ++ [{ x with description := unescapeNewlines v }], l.length⟩ := by
  simp only [step, stepNamed]
  rw [if_neg (by decide), if_neg (by decide), if_neg (by decide), if_neg (by decide),
    if_neg (by decide), if_neg (by decide), if_neg (by decide), if_neg (by decide),
    if_pos trivial]
  exact setTask_concat nm col l x _

theorem step_created_at (now : DateTime) (fresh : Nat → Str) (nm : Str) (col : Color)
    (l : List Task) (x : Task) (v : Str) (dtv : DateTime)
    (hv : parseIcalDateTime v = some dtv) :
    step now fresh ⟨nm, col, l ++ [x], l.length⟩ (PropLine.prop ⟨str "CREATED", some v⟩)
      = StepResult.cont ⟨nm, col, l ++ [{ x with created := dtv }], l.length⟩ := by
  simp only [step, stepNamed]
  rw [if_neg (by decide), if_neg (by decide), if_neg (by decide), if_neg (by decide),
    if_neg (by decide), if_neg (by decide), if_neg (by decide), if_neg (by decide),
    if_neg (by decide), if_neg (by decide), if_pos trivial, hv]
  exact setTask_concat nm col l x _

theorem get_concat (l : List Task) (x : Task) (h : l.length < (l ++ [x]).length) :
    (l ++ [x]).get ⟨l.length, h⟩ = x := by
  simp

theorem step_status_inprogress_at (now : DateTime) (fresh : Nat → Str) (nm : Str)
    (col : Color) (l : List Task) (x : Task) :
    step now fresh ⟨nm, col, l ++ [x], l.length⟩
        (PropLine.prop ⟨str "STATUS", some (str "IN-PROGRESS")⟩)
      = StepResult.cont ⟨nm, col, l ++ [{ x with status := TaskStatus.InProgress }], l.length⟩ := by
  simp only [step, stepNamed]
  rw [if_neg (by decide), if_neg (by decide), if_neg (by decide), if_neg (by decide),
    if_neg (by decide), if_neg (by decide), if_neg (by decide), if_pos trivial,
    dif_pos (by simp), if_pos trivial, get_concat, set_concat]

theorem step_status_needsaction_at (now : DateTime) (fresh : Nat → Str) (nm : Str)
    (col : Color) (l : List Task) (x : Task) :
    step now fresh ⟨nm, col, l ++ [x], l.length⟩
        (PropLine.prop ⟨str "STATUS", some (str "NEEDS-ACTION")⟩)
      = StepResult.cont ⟨nm, col, l ++ [{ x with status := TaskStatus.NeedsAction }], l.length⟩ := by
  simp only [step, stepNamed]
  rw [if_neg (by decide), if_neg (by decide), if_neg (by decide), if_neg (by decide),
    if_neg (by decide), if_neg (by decide), if_neg (by decide), if_pos trivial,
    dif_pos (by simp), if_neg (by decide), if_pos trivial, get_concat, set_concat]

theorem step_status_completed_at (now : DateTime) (fresh : Nat → Str) (nm : Str)
    (col : Color) (l : List Task) (x : Task) :
    step now fresh ⟨nm, col, l ++ [x], l.length⟩
        (PropLine.prop ⟨str "STATUS", some (str "COMPLETED")⟩)
      = StepResult.cont ⟨nm, col,
          l ++ [{ x with completed := true, status := TaskStatus.Completed }], l.length⟩ := by
  simp only [step, stepNamed]
  rw [if_neg (by decide), if_neg (by decide), if_neg (by decide), if_neg (by decide),
    if_neg (by decide), if_neg (by decide), if_neg (by decide), if_pos trivial,
    dif_pos (by simp), if_neg (by decide), if_neg (by decide), if_pos trivial,
    get_concat, set_concat]

theorem step_status_cancelled_at (now : DateTime) (fresh : Nat → Str) (nm : Str)
    (col : Color) (l : List Task) (x : Task) :
    step now fresh ⟨nm, col, l ++ [x], l.length⟩
        (PropLine.prop ⟨str "STATUS", some (str "CANCELLED")⟩)
      = StepResult.cont ⟨nm, col, l ++ [{ x with status := TaskStatus.Cancelled }], l.length⟩ := by
  simp only [step, stepNamed]
  rw [if_neg (by decide), if_neg (by decide), if_neg (by decide), if_neg (by decide),
    if_neg (by decide), if_neg (by decide), if_neg (by decide), if_pos trivial,
    dif_pos (by simp), if_neg (by decide), if_neg (by decide), if_neg (by decide),
    if_pos trivial, get_concat, set_concat]

end Taskmaster

namespace Taskmaster

/-- Cursor-task update performed by the optional DUE property of a block. -/
def dueUpd (x t : Task) : Task :=
  match t.due with
  | some d => { x with due := some d }
  | none => x

/-- Cursor-task update performed by the optional PRIORITY property. -/
def prioUpd (x t : Task) : Task :=
  if t.priority ≠ 0 then { x with priority := t.priority } else x

/-- Cursor-task update performed by the optional PERCENT-COMPLETE property. -/
def progUpd (x t : Task) : Task :=
  if t.progress ≠ 0 then { x with progress := t.progress } else x

/-- Cursor-task update performed by the STATUS property emitted for `t`. -/
def statUpd (x t : Task) : Task :=
  if t.completed then { x with completed := true, status := TaskStatus.Completed }
  else match t.status with
    | TaskStatus.InProgress => { x with status := TaskStatus.InProgress }
    | TaskStatus.NeedsAction => { x with status := TaskStatus.NeedsAction }
    | TaskStatus.Completed => { x with completed := true, status := TaskStatus.Completed }
    | TaskStatus.Cancelled => { x with status := TaskStatus.Cancelled }

/-- Cursor-task update performed by the optional DESCRIPTION property. -/
def descUpd (x t : Task) : Task :=
  if !t.description.isEmpty then
    { x with description := unescapeNewlines (escapeNewlines t.description) }
  else x

theorem run_due_chunk (nowdec : DateTime) (fresh : Nat → Str) (nm : Str) (col : Color)
    (l : List Task) (x t : Task) (rest : List PropLine)
    (hd : ∀ d, t.due = some d → ValidDate d) :
    runProps nowdec fresh ⟨nm, col, l ++ [x], l.length⟩
        ((match t.due with
          | some due =>
            [PropLine.prop ⟨str "DUE",
              some (datetime_to_ical_str { date := due, hh := 0, mm := 0, ss := 0 })⟩]
          | none => []) ++ rest)
      = runProps nowdec fresh ⟨nm, col, l ++ [dueUpd x t], l.length⟩ rest := by
  cases hdu : t.due with
  | none =>
    rw [List.nil_append]
    simp [dueUpd, hdu]
  | some d =>
    have hvd : ValidDate d := hd d hdu
    have hp : parseIcalDateTime (datetime_to_ical_str { date := d, hh := 0, mm := 0, ss := 0 })
        = some { date := d, hh := 0, mm := 0, ss := 0 } :=
      parse_datetime_roundtrip _ ⟨hvd, by simp, by simp, by simp⟩
    rw [List.singleton_append,
      runProps_cont_cons _ _ _ _ _ _ (step_due_at nowdec fresh nm col l x _ _ hp)]
    simp [dueUpd, hdu]

theorem run_prio_chunk (nowdec : DateTime) (fresh : Nat → Str) (nm : Str) (col : Color)
    (l : List Task) (x t : Task) (rest : List PropLine) (hp : t.priority < 256) :
    runProps nowdec fresh ⟨nm, col, l ++ [x], l.length⟩
        ((if t.priority ≠ 0 then
            [PropLine.prop ⟨str "PRIORITY", some (natToStr t.priority)⟩]
          else []) ++ rest)
      = runProps nowdec fresh ⟨nm, col, l ++ [prioUpd x t], l.length⟩ rest := by
  by_cases h0 : t.priority = 0
  · rw [if_neg (by simpa using h0), List.nil_append]
    rw [prioUpd, if_neg (by simpa using h0)]
  · rw [if_pos h0, List.singleton_append,
      runProps_cont_cons _ _ _ _ _ _
        (step_priority_at nowdec fresh nm col l x _ _ (parseU8_natToStr _ (by omega)))]
    rw [prioUpd, if_pos h0]

theorem run_prog_chunk (nowdec : DateTime) (fresh : Nat → Str) (nm : Str) (col : Color)
    (l : List Task) (x t : Task) (rest : List PropLine) (hp : t.progress < 256) :
    runProps nowdec fresh ⟨nm, col, l ++ [x], l.length⟩
        ((if t.progress ≠ 0 then
            [PropLine.prop ⟨str "PERCENT-COMPLETE", some (natToStr t.progress)⟩]
          else []) ++ rest)
      = runProps nowdec fresh ⟨nm, col, l ++ [progUpd x t], l.length⟩ rest := by
  by_cases h0 : t.progress = 0
  · rw [if_neg (by simpa using h0), List.nil_append]
    rw [progUpd, if_neg (by simpa using h0)]
  · rw [if_pos h0, List.singleton_append,
      runProps_cont_cons _ _ _ _ _ _
        (step_percent_at nowdec fresh nm col l x _ _ (parseU8_natToStr _ (by omega)))]
    rw [progUpd, if_pos h0]

theorem run_status_chunk (nowdec : DateTime) (fresh : Nat → Str) (nm : Str) (col : Color)
    (l : List Task) (x t : Task) (rest : List PropLine) :
    runProps nowdec fresh ⟨nm, col, l ++ [x], l.length⟩
        (PropLine.prop ⟨str "STATUS",
            some (if t.completed then str "COMPLETED"
              else match t.status with
                | TaskStatus.InProgress => str "IN-PROGRESS"
                | TaskStatus.NeedsAction => str "NEEDS-ACTION"
                | TaskStatus.Completed => str "COMPLETED"
                | TaskStatus.Cancelled => str "CANCELLED")⟩ :: rest)
      = runProps nowdec fresh ⟨nm, col, l ++ [statUpd x t], l.length⟩ rest := by
  cases hc : t.completed with
  | true =>
    rw [if_pos rfl,
      runProps_cont_cons _ _ _ _ _ _ (step_status_completed_at nowdec fresh nm col l x)]
    rw [statUpd, if_pos hc]
  | false =>
    rw [if_neg (by simp [hc])]
    cases hst : t.status with
    | InProgress =>
      rw [runProps_cont_cons _ _ _ _ _ _ (step_status_inprogress_at nowdec fresh nm col l x)]
      rw [statUpd, if_neg (by simp [hc]), hst]
    | NeedsAction =>
      rw [runProps_cont_cons _ _ _ _ _ _ (step_status_needsaction_at nowdec fresh nm col l x)]
      rw [statUpd, if_neg (by simp [hc]), hst]
    | Completed =>
      rw [runProps_cont_cons _ _ _ _ _ _ (step_status_completed_at nowdec fresh nm col l x)]
      rw [statUpd, if_neg (by simp [hc]), hst]
    | Cancelled =>
      rw [runProps_cont_cons _ _ _ _ _ _ (step_status_cancelled_at nowdec fresh nm col l x)]
      rw [statUpd, if_neg (by simp [hc]), hst]

theorem run_desc_chunk (nowdec : DateTime) (fresh : Nat → Str) (nm : Str) (col : Color)
    (l : List Task) (x t : Task) (rest : List PropLine) :
    runProps nowdec fresh ⟨nm, col, l ++ [x], l.length⟩
        ((if !t.description.isEmpty then
            [PropLine.prop ⟨str "DESCRIPTION", some (escapeNewlines t.description)⟩]
          else []) ++ rest)
      = runProps nowdec fresh ⟨nm, col, l ++ [descUpd x t], l.length⟩ rest := by
  by_cases h0 : (!t.description.isEmpty) = true
  · rw [if_pos h0, List.singleton_append,
      runProps_cont_cons _ _ _ _ _ _ (step_description_at nowdec fresh nm col l x _)]
    rw [descUpd, if_pos h0]
  · rw [if_neg h0, List.nil_append]
    rw [descUpd, if_neg h0]

end Taskmaster

namespace Taskmaster

theorem updAll_default (nowdec : DateTime) (u : Str) (t : Task)
    (hinf : ¬ ['\\', 'n'] <:+: t.description) :
    descUpd (statUpd (progUpd (prioUpd (dueUpd
        { { Task.defaultTask nowdec u with created := t.created } with summary := t.summary }
        t) t) t) t) t
      = decodedTask u t := by
  have hdesc := unescape_escape t.description hinf
  rw [decodedTask, Task.defaultTask]
  cases hdu : t.due <;> by_cases hpr : t.priority = 0 <;> by_cases hpg : t.progress = 0 <;>
    by_cases hde : t.description.isEmpty = true <;> cases hc : t.completed <;>
    cases hst : t.status <;>
    simp_all [dueUpd, prioUpd, progUpd, statUpd, descUpd, List.isEmpty_iff]

theorem runProps_taskProps_cont (nowdec : DateTime) (fresh : Nat → Str) (now : DateTime)
    (t : Task) (nm : Str) (col : Color) (l : List Task) (rest : List PropLine)
    (hv : ValidTask t) :
    runProps nowdec fresh ⟨nm, col, l, l.length⟩ (taskProps now t ++ rest)
      = runProps nowdec fresh
          ⟨nm, col, l ++ [decodedTask (fresh l.length) t], l.length + 1⟩ rest := by
  obtain ⟨hs1, hs2, hs3, hd1, hd2, hu1, hu2, hu3, hpg, hpr, hdue, hcre⟩ := hv
  rw [taskProps]
  simp only [List.append_assoc, List.cons_append, List.nil_append]
  rw [runProps_cont_cons _ _ _ _ _ _ (step_begin_vtodo nowdec fresh ⟨nm, col, l, l.length⟩)]
  rw [runProps_cont_cons _ _ _ _ _ _ (step_uid nowdec fresh _ t.uuid)]
  rw [runProps_cont_cons _ _ _ _ _ _
    (step_created_at nowdec fresh nm col l _ _ _ (parse_datetime_roundtrip t.created hcre))]
  rw [runProps_cont_cons _ _ _ _ _ _ (step_lastmodified nowdec fresh _ _)]
  rw [runProps_cont_cons _ _ _ _ _ _ (step_dtstamp nowdec fresh _ _)]
  rw [runProps_cont_cons _ _ _ _ _ _ (step_summary_at nowdec fresh nm col l _ t.summary)]
  rw [run_due_chunk nowdec fresh nm col l _ t _ hdue]
  rw [run_prio_chunk nowdec fresh nm col l _ t _ hpr]
  rw [run_prog_chunk nowdec fresh nm col l _ t _ hpg]
  rw [run_status_chunk nowdec fresh nm col l _ t _]
  rw [run_desc_chunk nowdec fresh nm col l _ t _]
  rw [runProps_cont_cons _ _ _ _ _ _ (step_end_vtodo nowdec fresh ⟨nm, col, _, l.length⟩)]
  rw [updAll_default nowdec (fresh l.length) t hd2]

end Taskmaster

namespace Taskmaster

/-- The decoded images of a run of tasks, with fresh uuids numbered from `k`. -/
def decodedTasks (fresh : Nat → Str) (k : Nat) : List Task → List Task
  | [] => []
  | t :: ts => decodedTask (fresh k) t :: decodedTasks fresh (k + 1) ts

theorem runProps_blocks (nowdec : DateTime) (fresh : Nat → Str) (now : DateTime)
    (ts : List Task) (nm : Str) (col : Color) (l : List Task) (rest : List PropLine)
    (hv : ∀ t ∈ ts, ValidTask t) :
    runProps nowdec fresh ⟨nm, col, l, l.length⟩ (ts.flatMap (taskProps now) ++ rest)
      = runProps nowdec fresh
          ⟨nm, col, l ++ decodedTasks fresh l.length ts, l.length + ts.length⟩ rest := by
  induction ts generalizing l with
  | nil => simp [decodedTasks]
  | cons t ts ih =>
    rw [List.flatMap_cons, List.append_assoc]
    rw [runProps_taskProps_cont nowdec fresh now t nm col l _ (hv t (List.mem_cons_self t ts))]
    have h1 : (l.length + 1 : Nat) = (l ++ [decodedTask (fresh l.length) t]).length := by simp
    rw [h1, ih (l ++ [decodedTask (fresh l.length) t])
      (fun t2 h2 => hv t2 (List.mem_cons_of_mem t h2))]
    have h2 : (l ++ [decodedTask (fresh l.length) t])
          ++ decodedTasks fresh (l ++ [decodedTask (fresh l.length) t]).length ts
        = l ++ decodedTasks fresh l.length (t :: ts) := by
      simp [decodedTasks, List.append_assoc]
    have h3 : (l ++ [decodedTask (fresh l.length) t]).length + ts.length
        = l.length + (t :: ts).length := by
      simp only [List.length_append, List.length_cons, List.length_nil]
      omega
    rw [h2, h3]

theorem runProps_headerProps (nowdec : DateTime) (fresh : Nat → Str) (L : TaskList)
    (rest : List PropLine)
    (hr1 : 16 ≤ L.color.r) (hr2 : L.color.r < 256) (hg1 : 16 ≤ L.color.g)
    (hg2 : L.color.g < 256) (hb1 : 16 ≤ L.color.b) (hb2 : L.color.b < 256) :
    runProps nowdec fresh ⟨str "New list", debugColor, [], 0⟩ (headerProps L ++ rest)
      = runProps nowdec fresh ⟨L.name, L.color, [], 0⟩ rest := by
  rw [headerProps]
  simp only [List.cons_append, List.nil_append]
  rw [runProps_cont_cons _ _ _ _ _ _ (step_begin_vcalendar nowdec fresh _)]
  rw [runProps_cont_cons _ _ _ _ _ _ (step_version nowdec fresh _ _)]
  rw [runProps_cont_cons _ _ _ _ _ _ (step_calscale nowdec fresh _ _)]
  rw [runProps_cont_cons _ _ _ _ _ _ (step_prodid nowdec fresh _ _)]
  rw [runProps_cont_cons _ _ _ _ _ _ (step_calname nowdec fresh _ L.name)]
  have hc : rgbFromHexStr
      ('#' :: (hexUpperU8 L.color.r ++ hexUpperU8 L.color.g ++ hexUpperU8 L.color.b))
      = some L.color := rgbFromHexStr_roundtrip L.color hr1 hr2 hg1 hg2 hb1 hb2
  rw [runProps_cont_cons _ _ _ _ _ _ (step_color_some nowdec fresh _ _ L.color hc)]
  rw [runProps_cont_cons _ _ _ _ _ _ (step_refresh nowdec fresh _ _)]

/-- Decoding the encoder output succeeds and produces the decoded image of
the original list: same name, same color, and the decoded image of every
task in order. -/
theorem from_ical_roundtrip (now nowdec : DateTime) (fresh : Nat → Str) (L : TaskList)
    (hv : ValidTaskList L) :
    from_ical_string nowdec fresh (to_ical_string now L)
      = DecodeOutcome.ok ⟨L.name, decodedTasks fresh 0 L.tasks, L.color⟩ := by
  obtain ⟨hn1, hn2, hn3, hcr1, hcr2, hcg1, hcg2, hcb1, hcb2, htasks⟩ := hv
  rw [from_ical_string, lexIcal_encode now L ⟨hn1, hn2, hn3, hcr1, hcr2, hcg1, hcg2, hcb1,
    hcb2, htasks⟩, from_ical_props]
  rw [TaskList.defaultList]
  rw [runProps_headerProps nowdec fresh L _ hcr1 hcr2 hcg1 hcg2 hcb1 hcb2]
  cases hts : L.tasks with
  | nil =>
    rw [tailProps]
    rw [runProps_cont_cons _ _ _ _ _ _ (step_published nowdec fresh _ _)]
    rw [runProps]
    rw [decodedTasks]
  | cons t ts =>
    rw [tailProps]
    rw [runProps_cont_cons _ _ _ _ _ _ (step_published nowdec fresh _ _)]
    rw [List.append_assoc]
    rw [show (⟨L.name, L.color, [], 0⟩ : DecState)
      = ⟨L.name, L.color, [], ([] : List Task).length⟩ from rfl]
    rw [runProps_taskProps_cont nowdec fresh now t L.name L.color [] _
      (htasks t (hts ▸ List.mem_cons_self t ts))]
    rw [show ((([] : List Task).length + 1 : Nat))
      = ([] ++ [decodedTask (fresh ([] : List Task).length) t] : List Task).length by simp]
    rw [runProps_blocks nowdec fresh now ts L.name L.color _ _
      (fun t2 h2 => htasks t2 (hts ▸ List.mem_cons_of_mem t h2))]
    rw [runProps_cont_cons _ _ _ _ _ _ (step_end_vcalendar nowdec fresh _)]
    rw [runProps]
    simp [decodedTasks]

end Taskmaster

namespace Taskmaster

-- ---------------------------------------------------------------------------
-- Sorting by due date (TaskList::sort with TaskSort::Due, src/task.rs)
-- ---------------------------------------------------------------------------

/-- Model of `chrono::NaiveDate` comparison: chronological order, which on
valid dates is lexicographic on year, month, day. -/
def dateLt (a b : Date) : Bool :=
  a.y < b.y || (a.y = b.y && (a.m < b.m || (a.m = b.m && a.d < b.d)))

/-- The comparator of the `TaskSort::Due` arm of `TaskList::sort`, consumed
the way `slice::sort_by` consumes it: only through `compare(a, b) == Less`.
The arm returns `Less` when `a` has a due date and either `b` has none or
the date of `a` is earlier; `Greater` otherwise (including two tasks without
due dates, which therefore never count as strictly less). -/
def dueIsLess (a b : Task) : Bool :=
  match a.due with
  | some ad =>
    match b.due with
    | some bd => dateLt ad bd
    | none => true
  | none => false

/-- Stable insertion of `x` after every element strictly less than it.  A
stable sort driven by an is-less predicate that is a strict weak order (as
Rust `slice::sort_by` guarantees) produces exactly the list this insertion
sort produces. -/
def insertByDue (x : Task) : List Task → List Task
  | [] => [x]
  | y :: ys => if dueIsLess y x then y :: insertByDue x ys else x :: y :: ys

/-- Model of `self.tasks.sort_by(...)` in the `TaskSort::Due` arm: a stable
sort of the task buffer by the due-date comparator. -/
def sortByDue : List Task → List Task
  | [] => []
  | x :: xs => insertByDue x (sortByDue xs)

/-- The `TaskSort::Due` arm of `TaskList::sort` (src/task.rs). -/
def sortDue (list : TaskList) : TaskList :=
  { list with tasks := sortByDue list.tasks }

theorem dueIsLess_asymm (a b : Task) (h : dueIsLess a b = true) : dueIsLess b a = false := by
  rw [dueIsLess] at h ⊢
  cases ha : a.due with
  | none => rw [ha] at h; exact absurd h (by simp)
  | some ad =>
    rw [ha] at h
    cases hb : b.due with
    | none => rfl
    | some bd =>
      rw [hb] at h
      unfold dateLt at h ⊢
      simp only [Bool.or_eq_true, Bool.and_eq_true, decide_eq_true_eq] at h
      simp only [Bool.or_eq_false_iff, Bool.and_eq_false_iff, decide_eq_false_iff_not,
        not_lt]
      omega

theorem dueIsLess_negtrans (a b c : Task) (hab : dueIsLess b a = false)
    (hbc : dueIsLess c b = false) : dueIsLess c a = false := by
  rw [dueIsLess] at hab hbc ⊢
  cases ha : a.due with
  | none =>
    cases hc : c.due with
    | none => rfl
    | some cd =>
      rw [ha] at hab
      cases hb : b.due with
      | none =>
        rw [hb, hc] at hbc
        exact absurd hbc (by simp)
      | some bd =>
        rw [hb] at hab
        exact absurd hab (by simp)
  | some ad =>
    cases hc : c.due with
    | none => rfl
    | some cd =>
      rw [ha] at hab
      cases hb : b.due with
      | none =>
        rw [hb, hc] at hbc
        exact absurd hbc (by simp)
      | some bd =>
        rw [hb] at hab
        rw [hb, hc] at hbc
        unfold dateLt at hab hbc ⊢
        simp only [Bool.or_eq_false_iff, Bool.and_eq_false_iff, decide_eq_false_iff_not,
          not_lt] at hab hbc ⊢
        omega

theorem dueIsLess_irrefl_same (a b : Task) (h : a.due = b.due) :
    dueIsLess a b = false := by
  rw [dueIsLess]
  cases ha : a.due with
  | none => rfl
  | some ad =>
    rw [h] at ha
    rw [ha]
    unfold dateLt
    simp only [Bool.or_eq_false_iff, Bool.and_eq_false_iff, decide_eq_false_iff_not, not_lt]
    omega

end Taskmaster

namespace Taskmaster

theorem insertByDue_perm (x : Task) (l : List Task) : (insertByDue x l).Perm (x :: l) := by
  induction l with
  | nil => exact List.Perm.refl _
  | cons y ys ih =>
    rw [insertByDue]
    split
    · exact (ih.cons y).trans (List.Perm.swap x y ys)
    · exact List.Perm.refl _

theorem sortByDue_perm (l : List Task) : (sortByDue l).Perm l := by
  induction l with
  | nil => exact List.Perm.refl _
  | cons x xs ih =>
    rw [sortByDue]
    exact (insertByDue_perm x (sortByDue xs)).trans (ih.cons x)

theorem insertByDue_pairwise (x : Task) (l : List Task)
    (hl : l.Pairwise (fun a b => dueIsLess b a = false)) :
    (insertByDue x l).Pairwise (fun a b => dueIsLess b a = false) := by
  induction l with
  | nil => simp [insertByDue]
  | cons y ys ih =>
    rw [List.pairwise_cons] at hl
    rw [insertByDue]
    split
    · rename_i hlt
      rw [List.pairwise_cons]
      constructor
      · intro z hz
        have hz2 : z ∈ x :: ys := (insertByDue_perm x ys).mem_iff.mp hz
        rcases List.mem_cons.mp hz2 with hz3 | hz3
        · rw [hz3]
          exact dueIsLess_asymm y x hlt
        · exact hl.1 z hz3
      · exact ih hl.2
    · rename_i hlt
      rw [List.pairwise_cons]
      constructor
      · intro z hz
        rcases List.mem_cons.mp hz with hz | hz
        · subst hz
          simpa using hlt
        · exact dueIsLess_negtrans x y z (by simpa using hlt) (hl.1 z hz)
      · rw [List.pairwise_cons]
        exact hl
  
theorem sortByDue_pairwise (l : List Task) :
    (sortByDue l).Pairwise (fun a b => dueIsLess b a = false) := by
  induction l with
  | nil => simp [sortByDue]
  | cons x xs ih =>
    rw [sortByDue]
    exact insertByDue_pairwise x (sortByDue xs) ih

theorem insertByDue_filter (x : Task) (l : List Task) (o : Option Date) :
    (insertByDue x l).filter (fun t => decide (t.due = o))
      = if x.due = o then x :: l.filter (fun t => decide (t.due = o))
        else l.filter (fun t => decide (t.due = o)) := by
  induction l with
  | nil =>
    rw [insertByDue, List.filter_cons, List.filter_nil]
    split
    · rename_i hx
      rw [if_pos (of_decide_eq_true hx)]
    · rename_i hx
      rw [if_neg (fun hc => hx (decide_eq_true hc))]
  | cons y ys ih =>
    rw [insertByDue]
    split
    · rename_i hlt
      by_cases hpx : x.due = o
      · by_cases hpy : y.due = o
        · exact absurd hlt (by rw [dueIsLess_irrefl_same y x (hpy.trans hpx.symm)]; simp)
        · simp [List.filter_cons, hpx, hpy, ih]
      · simp [List.filter_cons, hpx, ih]
    · by_cases hpx : x.due = o
      · simp [List.filter_cons, hpx]
      · simp [List.filter_cons, hpx]

theorem sortByDue_filter (l : List Task) (o : Option Date) :
    (sortByDue l).filter (fun t => decide (t.due = o))
      = l.filter (fun t => decide (t.due = o)) := by
  induction l with
  | nil => rfl
  | cons x xs ih =>
    rw [sortByDue, insertByDue_filter, List.filter_cons]
    by_cases hpx : x.due = o
    · rw [if_pos hpx, if_pos (decide_eq_true hpx), ih]
    · rw [if_neg hpx, if_neg (by simpa using hpx), ih]

end Taskmaster

namespace Taskmaster

theorem decodedTasks_length (fresh : Nat → Str) (k : Nat) (ts : List Task) :
    (decodedTasks fresh k ts).length = ts.length := by
  induction ts generalizing k with
  | nil => rfl
  | cons t ts ih =>
    rw [decodedTasks, List.length_cons, List.length_cons, ih]

theorem decodedTasks_get (fresh : Nat → Str) (k : Nat) (ts : List Task) (i : Nat)
    (h1 : i < (decodedTasks fresh k ts).length) (h2 : i < ts.length) :
    (decodedTasks fresh k ts).get ⟨i, h1⟩ = decodedTask (fresh (k + i)) (ts.get ⟨i, h2⟩) := by
  induction ts generalizing k i with
  | nil => exact absurd h2 (by simp)
  | cons t ts ih =>
    cases i with
    | zero => rfl
    | succ j =>
      have hj1 : j < (decodedTasks fresh (k + 1) ts).length := by
        rw [decodedTasks, List.length_cons] at h1
        omega
      have hj2 : j < ts.length := by
        rw [List.length_cons] at h2
        omega
      have := ih (k + 1) j hj1 hj2
      rw [show k + (j + 1) = k + 1 + j by omega]
      exact this

-- ---------------------------------------------------------------------------
-- The export branch of App::update (src/app.rs)
-- ---------------------------------------------------------------------------

/-- A file system modelled as an association list from paths to contents. -/
structure FileSys where
  entries : List (Str × Str)
deriving DecidableEq, Repr

/-- Looks up the contents stored at a path. -/
def fsLookup (fs : FileSys) (p : Str) : Option Str :=
  (fs.entries.find? (fun e => e.1 = p)).map (fun e => e.2)

/-- Modelled from std `File::create` semantics: creates the file at `p` or
truncates an existing one, then the model writes `content` to it; the prior
entry at `p`, if any, is replaced. -/
def fsSet (fs : FileSys) (p : Str) (content : Str) : FileSys :=
  ⟨(p, content) :: fs.entries.filter (fun e => !(e.1 = p : Bool))⟩

/-- Outcome of the export branch: a new file-system state, or a process
panic. -/
inductive ExportOutcome where
  | written (fs : FileSys)
  | panicked
deriving DecidableEq, Repr

/-- The export branch of `App::update` (src/app.rs):
`let mut f = File::create(file).unwrap(); f.write(list_str.as_bytes()).unwrap();`
`File::create` opens for writing, creating the file if absent and truncating
it if present, so an existing file is silently replaced; both results are
unwrapped, so any I/O error (modelled by the `ioFault` flag) panics instead
of being returned.  `now` is the clock value read by `to_ical_string`. -/
def exportTaskList (fs : FileSys) (path : Str) (ioFault : Bool) (now : DateTime)
    (list : TaskList) : ExportOutcome :=
  if ioFault then ExportOutcome.panicked
  else ExportOutcome.written (fsSet fs path (to_ical_string now list))

theorem fsLookup_fsSet (fs : FileSys) (p : Str) (content : Str) :
    fsLookup (fsSet fs p content) p = some content := by
  rw [fsLookup, fsSet]
  simp [List.find?]

end Taskmaster

namespace Taskmaster

-- ---------------------------------------------------------------------------
-- Range invariant maintained by the decoder (u8 fields)
-- ---------------------------------------------------------------------------

/-- Every task of the buffer carries byte-ranged progress and priority. -/
def TasksBounded (l : List Task) : Prop :=
  ∀ t ∈ l, t.progress ≤ 255 ∧ t.priority ≤ 255

theorem parseU8_le (s : Str) (n : Nat) (h : parseU8 s = some n) : n ≤ 255 := by
  simp only [parseU8] at h
  split at h
  · exact absurd h (by simp)
  · split at h
    · rename_i hcond
      rw [Option.some_inj] at h
      subst h
      simpa using (Bool.and_eq_true _ _).mp hcond |>.2
    · exact absurd h (by simp)

theorem setTask_bounded (s : DecState) (f : Task → Task) (s' : DecState)
    (hf : ∀ t, t.progress ≤ 255 ∧ t.priority ≤ 255
      → (f t).progress ≤ 255 ∧ (f t).priority ≤ 255)
    (h : setTask s f = StepResult.cont s') (hb : TasksBounded s.tasks) :
    TasksBounded s'.tasks := by
  rw [setTask] at h
  split at h
  · rename_i hlt
    injection h with h
    subst h
    intro t ht
    rcases List.mem_or_eq_of_mem_set ht with ht | ht
    · exact hb t ht
    · rw [ht]
      exact hf _ (hb _ (List.get_mem _ _ _))
  · exact absurd h (by simp)

theorem step_bounded (now : DateTime) (fresh : Nat → Str) (s : DecState) (p : PropLine)
    (s' : DecState) (h : step now fresh s p = StepResult.cont s')
    (hb : TasksBounded s.tasks) : TasksBounded s'.tasks := by
  have hset : ∀ (f : Task → Task),
      (∀ t, t.progress ≤ 255 ∧ t.priority ≤ 255
        → (f t).progress ≤ 255 ∧ (f t).priority ≤ 255)
      → setTask s f = StepResult.cont s' → TasksBounded s'.tasks :=
    fun f hf hh => setTask_bounded s f s' hf hh hb
  cases p with
  | malformed => exact absurd h (by rw [step_malformed]; simp)
  | prop pp =>
    obtain ⟨nm, v⟩ := pp
    cases v with
    | none => exact absurd h (by rw [step_novalue]; simp)
    | some value =>
      replace h : stepNamed now fresh s nm value = StepResult.cont s' := h
      unfold stepNamed at h
      by_cases h1 : nm = str "X-WR-CALNAME"
      · rw [if_pos h1] at h
        injection h with h
        subst h
        exact hb
      rw [if_neg h1] at h
      by_cases h2 : nm = str "X-APPLE-CALENDAR-COLOR"
      · rw [if_pos h2] at h
        split at h <;> (injection h with h; subst h; exact hb)
      rw [if_neg h2] at h
      by_cases h3 : nm = str "BEGIN"
      · rw [if_pos h3] at h
        by_cases hv1 : value = str "VTODO"
        · rw [if_pos hv1] at h
          injection h with h
          subst h
          intro t ht
          rcases List.mem_append.mp ht with ht | ht
          · exact hb t ht
          · rw [List.mem_singleton] at ht
            rw [ht, Task.defaultTask]
            exact ⟨by simp, by simp⟩
        rw [if_neg hv1] at h
        by_cases hv2 : value = str "VCALENDAR"
        · rw [if_pos hv2] at h
          injection h with h
          subst h
          exact hb
        · rw [if_neg hv2] at h
          exact absurd h (by simp)
      rw [if_neg h3] at h
      by_cases h4 : nm = str "SUMMARY"
      · rw [if_pos h4] at h
        exact hset _ (fun t ht => by simpa using ht) h
      rw [if_neg h4] at h
      by_cases h5 : nm = str "DUE"
      · rw [if_pos h5] at h
        split at h
        · exact hset _ (fun t ht => by simpa using ht) h
        · exact absurd h (by simp)
      rw [if_neg h5] at h
      by_cases h6 : nm = str "PRIORITY"
      · rw [if_pos h6] at h
        split at h
        · rename_i n hn
          exact hset _ (fun t ht => by simp [parseU8_le _ _ hn, ht.1]) h
        · exact absurd h (by simp)
      rw [if_neg h6] at h
      by_cases h7 : nm = str "PERCENT-COMPLETE"
      · rw [if_pos h7] at h
        split at h
        · rename_i n hn
          exact hset _ (fun t ht => by simp [parseU8_le _ _ hn, ht.2]) h
        · exact absurd h (by simp)
      rw [if_neg h7] at h
      by_cases h8 : nm = str "STATUS"
      · rw [if_pos h8] at h
        by_cases hcc : s.task_counter < s.tasks.length
        · rw [dif_pos hcc] at h
          have hmem : ∀ (y : Task), y.progress = (s.tasks.get ⟨s.task_counter, hcc⟩).progress
              → y.priority = (s.tasks.get ⟨s.task_counter, hcc⟩).priority
              → (∀ t ∈ s.tasks.set s.task_counter y, t.progress ≤ 255 ∧ t.priority ≤ 255) := by
            intro y hyp hypr t ht
            rcases List.mem_or_eq_of_mem_set ht with ht | ht
            · exact hb t ht
            · rw [ht, hyp, hypr]
              exact hb _ (List.get_mem _ _ _)
          by_cases hv1 : value = str "IN-PROGRESS"
          · rw [if_pos hv1] at h
            injection h with h
            subst h
            exact hmem _ rfl rfl
          rw [if_neg hv1] at h
          by_cases hv2 : value = str "NEEDS-ACTION"
          · rw [if_pos hv2] at h
            injection h with h
            subst h
            exact hmem _ rfl rfl
          rw [if_neg hv2] at h
          by_cases hv3 : value = str "COMPLETED"
          · rw [if_pos hv3] at h
            injection h with h
            subst h
            exact hmem _ rfl rfl
          rw [if_neg hv3] at h
          by_cases hv4 : value = str "CANCELLED"
          · rw [if_pos hv4] at h
            injection h with h
            subst h
            exact hmem _ rfl rfl
          · rw [if_neg hv4] at h
            exact absurd h (by simp)
        · rw [dif_neg hcc] at h
          exact absurd h (by simp)
      rw [if_neg h8] at h
      by_cases h9 : nm = str "DESCRIPTION"
      · rw [if_pos h9] at h
        exact hset _ (fun t ht => by simpa using ht) h
      rw [if_neg h9] at h
      by_cases h10 : nm = str "END"
      · rw [if_pos h10] at h
        by_cases hv1 : value = str "VTODO"
        · rw [if_pos hv1] at h
          injection h with h
          subst h
          exact hb
        · rw [if_neg hv1] at h
          injection h with h
          subst h
          exact hb
      rw [if_neg h10] at h
      by_cases h11 : nm = str "CREATED"
      · rw [if_pos h11] at h
        split at h
        · exact hset _ (fun t ht => by simpa using ht) h
        · exact absurd h (by simp)
      · rw [if_neg h11] at h
        injection h with h
        subst h
        exact hb

theorem runProps_bounded (now : DateTime) (fresh : Nat → Str) (s : DecState)
    (props : List PropLine) (s' : DecState)
    (h : runProps now fresh s props = StepResult.cont s') (hb : TasksBounded s.tasks) :
    TasksBounded s'.tasks := by
  induction props generalizing s with
  | nil =>
    rw [runProps] at h
    injection h with h
    rw [← h]
    exact hb
  | cons p rest ih =>
    rw [runProps] at h
    cases hstep : step now fresh s p with
    | cont s1 =>
      rw [hstep] at h
      exact ih s1 h (step_bounded now fresh s p s1 hstep hb)
    | err e =>
      rw [hstep] at h
      exact absurd h (by simp)
    | panicked =>
      rw [hstep] at h
      exact absurd h (by simp)

theorem from_ical_props_bounded (now : DateTime) (fresh : Nat → Str)
    (props : List PropLine) (L : TaskList)
    (h : from_ical_props now fresh props = DecodeOutcome.ok L) :
    TasksBounded L.tasks := by
  rw [from_ical_props] at h
  cases hrun : runProps now fresh
      { name := TaskList.defaultList.name, color := TaskList.defaultList.color,
        tasks := [], task_counter := 0 } props with
  | cont s =>
    rw [hrun] at h
    injection h with h
    rw [← h]
    exact runProps_bounded now fresh _ props s hrun (by intro t ht; simp at ht)
  | err e =>
    rw [hrun] at h
    exact absurd h (by simp)
  | panicked =>
    rw [hrun] at h
    exact absurd h (by simp)

end Taskmaster

namespace Taskmaster

-- ---------------------------------------------------------------------------
-- Concrete fixtures used by witnesses and counterexamples
-- ---------------------------------------------------------------------------

/-- A fixed clock value (2023-08-01 15:12:08). -/
def now0 : DateTime := ⟨⟨2023, 8, 1⟩, 15, 12, 8⟩

/-- A fixed uuid generator. -/
def fresh0 : Nat → Str := fun _ => str "00000000-0000-0000-0000-000000000000"

/-- A concrete task exercising every encoded field. -/
def exTask : Task :=
  ⟨str "Task 1", false, str "desc\nmore", 47, 9, TaskStatus.NeedsAction,
    some ⟨2023, 8, 25⟩, ⟨⟨2023, 8, 1⟩, 15, 12, 8⟩, false,
    str "123e4567-e89b-12d3-a456-426614174000"⟩

/-- A concrete list with one task. -/
def exList : TaskList := ⟨str "test", [exTask], ⟨83, 130, 163⟩⟩

/-- A list whose color components are all below sixteen. -/
def cexList : TaskList := ⟨str "A", [], ⟨1, 2, 3⟩⟩

end Taskmaster

namespace Taskmaster

-- ---------------------------------------------------------------------------
-- Supporting lemmas for the claim theorems
-- ---------------------------------------------------------------------------

theorem splitLines_joinLines_append (ls : List Str) (rest : Str)
    (h : ∀ l ∈ ls, '\n' ∉ l) :
    splitLines (joinLines ls ++ rest) = ls ++ splitLines rest := by
  induction ls with
  | nil => simp [joinLines]
  | cons l ls ih =>
    rw [joinLines_cons, List.append_assoc, List.cons_append,
      splitLines_append_line l _ (h l (List.mem_cons_self l ls)),
      ih (fun x hx => h x (List.mem_cons_of_mem l hx))]
    rfl

theorem hexDigitUpper_is_hex (d : Nat) (h : d < 16) :
    ('0' ≤ hexDigitUpper d ∧ hexDigitUpper d ≤ '9')
      ∨ ('A' ≤ hexDigitUpper d ∧ hexDigitUpper d ≤ 'F') := by
  interval_cases d <;> first | (left; constructor <;> decide) | (right; constructor <;> decide)

theorem mem_hexUpperU8_is_hex (c : Nat) (hc : c < 256) (ch : Char) (hm : ch ∈ hexUpperU8 c) :
    ('0' ≤ ch ∧ ch ≤ '9') ∨ ('A' ≤ ch ∧ ch ≤ 'F') := by
  rw [hexUpperU8] at hm
  split at hm
  · rw [List.mem_singleton] at hm
    rw [hm]
    exact hexDigitUpper_is_hex c (by omega)
  · rw [List.mem_cons, List.mem_singleton] at hm
    rcases hm with hm | hm
    · rw [hm]
      exact hexDigitUpper_is_hex (c / 16) (by omega)
    · rw [hm]
      exact hexDigitUpper_is_hex (c % 16) (by omega)

-- ---------------------------------------------------------------------------
-- Claim theorems
-- ---------------------------------------------------------------------------

/-- C1 (amended): for every task list with nonempty single-line name, color
components between 16 and 255, and valid task field values, decoding the
encoded text succeeds and returns a list with the same name and color whose
tasks, in order, keep summary, progress, priority, due, description and
created, and whose status obeys the completed-precedence rule. -/
theorem c1_encode_decode_roundtrip (now nowdec : DateTime) (fresh : Nat → Str)
    (L : TaskList) (hv : ValidTaskList L) :
    ∃ L', from_ical_string nowdec fresh (to_ical_string now L) = DecodeOutcome.ok L'
      ∧ L'.name = L.name ∧ L'.color = L.color ∧ L'.tasks.length = L.tasks.length
      ∧ ∀ (i : Nat) (h1 : i < L'.tasks.length) (h2 : i < L.tasks.length),
          (L'.tasks.get ⟨i, h1⟩).summary = (L.tasks.get ⟨i, h2⟩).summary
          ∧ (L'.tasks.get ⟨i, h1⟩).progress = (L.tasks.get ⟨i, h2⟩).progress
          ∧ (L'.tasks.get ⟨i, h1⟩).priority = (L.tasks.get ⟨i, h2⟩).priority
          ∧ (L'.tasks.get ⟨i, h1⟩).status
              = (if (L.tasks.get ⟨i, h2⟩).completed then TaskStatus.Completed
                else (L.tasks.get ⟨i, h2⟩).status)
          ∧ (L'.tasks.get ⟨i, h1⟩).due = (L.tasks.get ⟨i, h2⟩).due
          ∧ (L'.tasks.get ⟨i, h1⟩).description = (L.tasks.get ⟨i, h2⟩).description
          ∧ (L'.tasks.get ⟨i, h1⟩).created = (L.tasks.get ⟨i, h2⟩).created := by
  refine ⟨⟨L.name, decodedTasks fresh 0 L.tasks, L.color⟩,
    from_ical_roundtrip now nowdec fresh L hv, rfl, rfl,
    decodedTasks_length fresh 0 L.tasks, ?_⟩
  intro i h1 h2
  have hg := decodedTasks_get fresh 0 L.tasks i h1 h2
  have hsum : ((decodedTasks fresh 0 L.tasks).get ⟨i, h1⟩).summary
      = (L.tasks.get ⟨i, h2⟩).summary := by rw [hg]; rfl
  have hprog : ((decodedTasks fresh 0 L.tasks).get ⟨i, h1⟩).progress
      = (L.tasks.get ⟨i, h2⟩).progress := by rw [hg]; rfl
  have hprio : ((decodedTasks fresh 0 L.tasks).get ⟨i, h1⟩).priority
      = (L.tasks.get ⟨i, h2⟩).priority := by rw [hg]; rfl
  have hstat : ((decodedTasks fresh 0 L.tasks).get ⟨i, h1⟩).status
      = (if (L.tasks.get ⟨i, h2⟩).completed then TaskStatus.Completed
        else (L.tasks.get ⟨i, h2⟩).status) := by rw [hg]; rfl
  have hdue : ((decodedTasks fresh 0 L.tasks).get ⟨i, h1⟩).due
      = (L.tasks.get ⟨i, h2⟩).due := by rw [hg]; rfl
  have hdesc : ((decodedTasks fresh 0 L.tasks).get ⟨i, h1⟩).description
      = (L.tasks.get ⟨i, h2⟩).description := by rw [hg]; rfl
  have hcre : ((decodedTasks fresh 0 L.tasks).get ⟨i, h1⟩).created
      = (L.tasks.get ⟨i, h2⟩).created := by rw [hg]; rfl
  exact ⟨hsum, hprog, hprio, hstat, hdue, hdesc, hcre⟩

/-- C1 witness: the round trip instantiated at a concrete valid list with
one task exercising every field. -/
theorem c1_encode_decode_roundtrip_witness :
    ∃ L', from_ical_string now0 fresh0 (to_ical_string now0 exList) = DecodeOutcome.ok L'
      ∧ L'.name = exList.name ∧ L'.color = exList.color
      ∧ L'.tasks.length = exList.tasks.length := by
  obtain ⟨L', ha, hb, hc, hd, _⟩ :=
    c1_encode_decode_roundtrip now0 now0 fresh0 exList (by decide)
  exact ⟨L', ha, hb, hc, hd⟩

/-- C1 counterexample: for the list named `A` with no tasks and color
(1, 2, 3), the decode of the encode succeeds but returns color (17, 34, 51):
the unpadded single hex digits re-parse as a three-digit short form. -/
theorem c1_color_roundtrip_counterexample :
    from_ical_string now0 fresh0 (to_ical_string now0 cexList)
      = DecodeOutcome.ok ⟨str "A", [], ⟨17, 34, 51⟩⟩
    ∧ (⟨17, 34, 51⟩ : Color) ≠ cexList.color := by
  constructor
  · decide
  · decide

/-- C2: a field-setting property arriving before any `BEGIN:VTODO` makes the
decoding loop index an empty task buffer, which is the Rust index panic, not
an `InvalidFile` error result. -/
theorem c2_field_before_vtodo_panics :
    from_ical_string now0 fresh0 (str "BEGIN:VCALENDAR\nSUMMARY:x\nEND:VCALENDAR\n")
      = DecodeOutcome.panicked := by decide

/-- C3 (amended): the decoder has no UID branch at all: a UID property is
ignored whatever its value, the decoded task always keeps the freshly
generated id, and decoding succeeds both for a syntactically valid and for an
invalid UID value. -/
theorem c3_uid_ignored :
    (∀ (now : DateTime) (fresh : Nat → Str) (s : DecState) (v : Str),
      step now fresh s (PropLine.prop ⟨str "UID", some v⟩) = StepResult.cont s)
    ∧ from_ical_string now0 fresh0
        (str "BEGIN:VCALENDAR\nBEGIN:VTODO\nUID:123e4567-e89b-12d3-a456-426614174000\nEND:VTODO\nEND:VCALENDAR\n")
      = DecodeOutcome.ok ⟨str "New list",
          [⟨str "New task", false, [], 0, 0, TaskStatus.InProgress, none, now0, false,
            str "00000000-0000-0000-0000-000000000000"⟩], debugColor⟩
    ∧ from_ical_string now0 fresh0
        (str "BEGIN:VCALENDAR\nBEGIN:VTODO\nUID:not a valid uuid\nEND:VTODO\nEND:VCALENDAR\n")
      = DecodeOutcome.ok ⟨str "New list",
          [⟨str "New task", false, [], 0, 0, TaskStatus.InProgress, none, now0, false,
            str "00000000-0000-0000-0000-000000000000"⟩], debugColor⟩ := by
  refine ⟨fun now fresh s v => step_uid now fresh s v, ?_, ?_⟩
  · decide
  · decide

/-- C3 counterexample: decoding a block that carries a syntactically valid
UID does not set the task id to that UID; the task keeps the freshly
generated one. -/
theorem c3_uid_preserved_counterexample :
    from_ical_string now0 fresh0
        (str "BEGIN:VCALENDAR\nBEGIN:VTODO\nUID:123e4567-e89b-12d3-a456-426614174000\nEND:VTODO\nEND:VCALENDAR\n")
      = DecodeOutcome.ok ⟨str "New list",
          [⟨str "New task", false, [], 0, 0, TaskStatus.InProgress, none, now0, false,
            str "00000000-0000-0000-0000-000000000000"⟩], debugColor⟩
    ∧ str "00000000-0000-0000-0000-000000000000"
        ≠ str "123e4567-e89b-12d3-a456-426614174000" := by
  constructor
  · decide
  · decide

end Taskmaster

namespace Taskmaster

/-- C4 (amended): line six of the encoded text is the calendar color
property, whose value is a hash sign followed by the concatenation of the
unpadded uppercase hex forms of the three components; every character of
that hex part is an uppercase hex digit, and the part has six digits exactly
when every component is at least sixteen (so that each contributes two
digits). -/
theorem c4_color_line (now : DateTime) (L : TaskList) (hn : '\n' ∉ L.name)
    (hr : L.color.r < 256) (hg : L.color.g < 256) (hb : L.color.b < 256) :
    (splitLines (to_ical_string now L))[5]?
      = some (str "X-APPLE-CALENDAR-COLOR:" ++
          ('#' :: hexUpperU8 L.color.r ++ hexUpperU8 L.color.g ++ hexUpperU8 L.color.b))
    ∧ (∀ c ∈ hexUpperU8 L.color.r ++ hexUpperU8 L.color.g ++ hexUpperU8 L.color.b,
        ('0' ≤ c ∧ c ≤ '9') ∨ ('A' ≤ c ∧ c ≤ 'F'))
    ∧ (16 ≤ L.color.r → 16 ≤ L.color.g → 16 ≤ L.color.b →
        (hexUpperU8 L.color.r ++ hexUpperU8 L.color.g ++ hexUpperU8 L.color.b).length = 6) := by
  refine ⟨?_, ?_, ?_⟩
  · rw [to_ical_string_eq_joinLines, joinLines_append,
      splitLines_joinLines_append _ _ (headerLines_no_newline L hn hr hg hb),
      List.getElem?_append_left (by rw [headerLines]; simp), headerLines]
    rfl
  · intro c hc
    rcases List.mem_append.mp hc with hc | hc
    · rcases List.mem_append.mp hc with hc | hc
      · exact mem_hexUpperU8_is_hex L.color.r hr c hc
      · exact mem_hexUpperU8_is_hex L.color.g hg c hc
    · exact mem_hexUpperU8_is_hex L.color.b hb c hc
  · intro h16r h16g h16b
    rw [hexUpperU8_eq_pair L.color.r h16r hr, hexUpperU8_eq_pair L.color.g h16g hg,
      hexUpperU8_eq_pair L.color.b h16b hb]
    rfl

/-- C4 witness: the color line instantiated at a concrete list whose
components are all at least sixteen, so the hex part has six digits. -/
theorem c4_color_line_witness :
    (splitLines (to_ical_string now0 exList))[5]?
      = some (str "X-APPLE-CALENDAR-COLOR:" ++
          ('#' :: hexUpperU8 exList.color.r ++ hexUpperU8 exList.color.g
            ++ hexUpperU8 exList.color.b))
    ∧ (hexUpperU8 exList.color.r ++ hexUpperU8 exList.color.g
        ++ hexUpperU8 exList.color.b).length = 6 :=
  ⟨(c4_color_line now0 exList (by decide) (by decide) (by decide) (by decide)).1,
   (c4_color_line now0 exList (by decide) (by decide) (by decide)
     (by decide)).2.2 (by decide) (by decide) (by decide)⟩

/-- C4 counterexample: for color (1, 2, 3) the emitted line is
`X-APPLE-CALENDAR-COLOR:#123` — the value after the hash sign has three
characters, not six. -/
theorem c4_color_short_counterexample :
    (splitLines (to_ical_string now0 cexList))[5]?
      = some (str "X-APPLE-CALENDAR-COLOR:#123")
    ∧ (str "123").length ≠ 6 := by
  constructor
  · decide
  · decide

/-- C5 (amended): when the target path already holds a file, exporting does
not fail: it replaces the contents of that file with the encoded text; and
when the underlying write fails, the unwrapped I/O error is a panic, not a
returned error. -/
theorem c5_export_overwrites (fs : FileSys) (path : Str) (now : DateTime)
    (list : TaskList) (old : Str) ( _hold : fsLookup fs path = some old) :
    exportTaskList fs path false now list
      = ExportOutcome.written (fsSet fs path (to_ical_string now list))
    ∧ fsLookup (fsSet fs path (to_ical_string now list)) path
        = some (to_ical_string now list)
    ∧ exportTaskList fs path true now list = ExportOutcome.panicked :=
  ⟨rfl, fsLookup_fsSet fs path (to_ical_string now list), rfl⟩

/-- C5 witness: the overwrite behaviour instantiated at a file system that
already holds the target path. -/
theorem c5_export_overwrites_witness :
    exportTaskList ⟨[(str "list.ics", str "old")]⟩ (str "list.ics") false now0 cexList
      = ExportOutcome.written
          (fsSet ⟨[(str "list.ics", str "old")]⟩ (str "list.ics")
            (to_ical_string now0 cexList))
    ∧ fsLookup
        (fsSet ⟨[(str "list.ics", str "old")]⟩ (str "list.ics")
          (to_ical_string now0 cexList)) (str "list.ics")
        = some (to_ical_string now0 cexList)
    ∧ exportTaskList ⟨[(str "list.ics", str "old")]⟩ (str "list.ics") true now0 cexList
        = ExportOutcome.panicked :=
  c5_export_overwrites ⟨[(str "list.ics", str "old")]⟩ (str "list.ics") now0 cexList
    (str "old") (by decide)

/-- C5 counterexample: exporting onto an existing path silently replaces the
old contents rather than reporting anything; afterwards the path no longer
holds the old text. -/
theorem c5_overwrite_counterexample :
    fsLookup ⟨[(str "a.ics", str "old")]⟩ (str "a.ics") = some (str "old")
    ∧ exportTaskList ⟨[(str "a.ics", str "old")]⟩ (str "a.ics") false now0 cexList
        = ExportOutcome.written
            (fsSet ⟨[(str "a.ics", str "old")]⟩ (str "a.ics") (to_ical_string now0 cexList))
    ∧ fsLookup
        (fsSet ⟨[(str "a.ics", str "old")]⟩ (str "a.ics") (to_ical_string now0 cexList))
        (str "a.ics") ≠ some (str "old") := by
  refine ⟨?_, rfl, ?_⟩
  · decide
  · decide

/-- C6 (amended): a STATUS property whose value is none of the four
recognised tokens, arriving while a task is open, stops the decode with the
`InvalidStatus` error, which is a different error from `InvalidField`. -/
theorem c6_invalid_status_error (now : DateTime) (fresh : Nat → Str)
    (s : DecState) (tok : Str) (hcc : s.task_counter < s.tasks.length)
    (h1 : tok ≠ str "IN-PROGRESS") (h2 : tok ≠ str "NEEDS-ACTION")
    (h3 : tok ≠ str "COMPLETED") (h4 : tok ≠ str "CANCELLED") :
    step now fresh s (PropLine.prop ⟨str "STATUS", some tok⟩)
      = StepResult.err ParseFromFileError.InvalidStatus
    ∧ ParseFromFileError.InvalidStatus ≠ ParseFromFileError.InvalidField := by
  constructor
  · simp only [step, stepNamed]
    rw [if_neg (by decide), if_neg (by decide), if_neg (by decide), if_neg (by decide),
      if_neg (by decide), if_neg (by decide), if_neg (by decide), if_pos trivial,
      dif_pos hcc, if_neg h1, if_neg h2, if_neg h3, if_neg h4]
  · decide

/-- C6 witness: the invalid-token behaviour instantiated at the token DONE
with one open task. -/
theorem c6_invalid_status_error_witness :
    step now0 fresh0 ⟨str "N", debugColor, [Task.defaultTask now0 (fresh0 0)], 0⟩
        (PropLine.prop ⟨str "STATUS", some (str "DONE")⟩)
      = StepResult.err ParseFromFileError.InvalidStatus
    ∧ ParseFromFileError.InvalidStatus ≠ ParseFromFileError.InvalidField :=
  c6_invalid_status_error now0 fresh0 ⟨str "N", debugColor, [Task.defaultTask now0 (fresh0 0)], 0⟩
    (str "DONE") (by decide) (by decide) (by decide) (by decide) (by decide)

/-- C6 counterexample: a full decode of a file carrying `STATUS:DONE` stops
with `InvalidStatus`, not `InvalidField`. -/
theorem c6_invalid_field_counterexample :
    from_ical_string now0 fresh0
        (str "BEGIN:VCALENDAR\nBEGIN:VTODO\nSTATUS:DONE\nEND:VTODO\nEND:VCALENDAR\n")
      = DecodeOutcome.err ParseFromFileError.InvalidStatus
    ∧ DecodeOutcome.err ParseFromFileError.InvalidStatus
        ≠ DecodeOutcome.err ParseFromFileError.InvalidField := by
  constructor
  · decide
  · decide

/-- C7 (amended): every task list produced by a successful decode has all
progress and priority values within the u8 range 0 to 255; the decoder
enforces no tighter bound. -/
theorem c7_decoded_fields_u8 (now : DateTime) (fresh : Nat → Str)
    (props : List PropLine) (L : TaskList)
    (h : from_ical_props now fresh props = DecodeOutcome.ok L) :
    ∀ t ∈ L.tasks, t.progress ≤ 255 ∧ t.priority ≤ 255 :=
  from_ical_props_bounded now fresh props L h

/-- C7 witness: the bound instantiated at the decode of a concrete encoded
list. -/
theorem c7_decoded_fields_u8_witness :
    (decodedTask (fresh0 0) exTask).progress ≤ 255
    ∧ (decodedTask (fresh0 0) exTask).priority ≤ 255 :=
  c7_decoded_fields_u8 now0 fresh0 (lexIcal (to_ical_string now0 exList))
    ⟨str "test", decodedTasks fresh0 0 [exTask], ⟨83, 130, 163⟩⟩ (by decide)
    (decodedTask (fresh0 0) exTask) (by simp [decodedTasks])

/-- C7 counterexample: a decode accepts PERCENT-COMPLETE 200 and PRIORITY 11
unchanged, so the ranges 0 to 100 and 0 to 9 claimed by the specification are
not enforced. -/
theorem c7_range_counterexample :
    from_ical_string now0 fresh0
        (str "BEGIN:VCALENDAR\nBEGIN:VTODO\nPERCENT-COMPLETE:200\nPRIORITY:11\nEND:VTODO\nEND:VCALENDAR\n")
      = DecodeOutcome.ok ⟨str "New list",
          [⟨str "New task", false, [], 200, 11, TaskStatus.InProgress, none, now0, false,
            str "00000000-0000-0000-0000-000000000000"⟩], debugColor⟩
    ∧ ¬ (200 ≤ 100) ∧ ¬ (11 ≤ 9) := by
  refine ⟨?_, ?_, ?_⟩
  · decide
  · decide
  · decide

end Taskmaster

namespace Taskmaster

/-- C8: status encoding and the completed flag take precedence as claimed: a
completed task is always written `STATUS:COMPLETED` whatever its status
field; a non-completed task is written with the token of its status value;
and decoding a completed task yields a task whose status is Completed and
whose completed flag is set. -/
theorem c8_status_precedence (now : DateTime) (t : Task) (hv : ValidTask t) :
    (t.completed = true → str "STATUS:COMPLETED" ∈ splitLines (taskBlock now t))
    ∧ (t.completed = false →
        (str "STATUS:" ++
          (match t.status with
           | TaskStatus.InProgress => str "IN-PROGRESS"
           | TaskStatus.NeedsAction => str "NEEDS-ACTION"
           | TaskStatus.Completed => str "COMPLETED"
           | TaskStatus.Cancelled => str "CANCELLED")) ∈ splitLines (taskBlock now t))
    ∧ (∀ (nowdec : DateTime) (fresh : Nat → Str) (L : TaskList),
        ValidTaskList L → L.tasks = [t] → t.completed = true →
        ∃ t2, from_ical_string nowdec fresh (to_ical_string now L)
            = DecodeOutcome.ok ⟨L.name, [t2], L.color⟩
          ∧ t2.status = TaskStatus.Completed ∧ t2.completed = true) := by
  have hsplit : splitLines (taskBlock now t) = (([] : Str) :: blockLines now t) ++ [[]] := by
    rw [taskBlock_eq_joinLines]
    refine splitLines_joinLines _ ?_
    intro l hl
    rcases List.mem_cons.mp hl with h | h
    · subst h; simp
    · exact blockLines_no_newline now t hv l h
  refine ⟨?_, ?_, ?_⟩
  · intro hc
    rw [hsplit]
    apply List.mem_append_left
    apply List.mem_cons_of_mem
    simp [blockLines, hc]
  · intro hc
    rw [hsplit]
    apply List.mem_append_left
    apply List.mem_cons_of_mem
    simp [blockLines, hc]
  · intro nowdec fresh L hvL hts hc
    have hr := from_ical_roundtrip now nowdec fresh L hvL
    rw [hts] at hr
    refine ⟨decodedTask (fresh 0) t, hr, ?_, ?_⟩
    · simp [decodedTask, hc]
    · simp [decodedTask, hc]

/-- C8 witness: a concrete completed task whose status field is InProgress is
still written `STATUS:COMPLETED`. -/
theorem c8_status_precedence_witness :
    str "STATUS:COMPLETED" ∈ splitLines (taskBlock now0
      ⟨str "T", true, [], 0, 0, TaskStatus.InProgress, none, now0, false, str "u"⟩) :=
  (c8_status_precedence now0
    ⟨str "T", true, [], 0, 0, TaskStatus.InProgress, none, now0, false, str "u"⟩
    (by decide)).1 rfl

/-- C9: the Due sort keeps the name and color, permutes the tasks, puts every
task with a due date before every task without one, orders dated tasks
nondecreasingly by date, and is stable: the subsequence of tasks sharing any
given due value is unchanged. -/
theorem c9_sort_due (L : TaskList) :
    (sortDue L).name = L.name ∧ (sortDue L).color = L.color
    ∧ ((sortDue L).tasks).Perm L.tasks
    ∧ ((sortDue L).tasks).Pairwise (fun a b => a.due = none → b.due = none)
    ∧ ((sortDue L).tasks).Pairwise (fun a b =>
        ∀ da db, a.due = some da → b.due = some db → dateLt db da = false)
    ∧ ∀ o : Option Date,
        ((sortDue L).tasks).filter (fun t => decide (t.due = o))
          = L.tasks.filter (fun t => decide (t.due = o)) := by
  refine ⟨rfl, rfl, sortByDue_perm L.tasks, ?_, ?_, fun o => sortByDue_filter L.tasks o⟩
  · refine (sortByDue_pairwise L.tasks).imp ?_
    intro a b h hna
    cases hbd : b.due with
    | none => rfl
    | some bd =>
      have htrue : dueIsLess b a = true := by rw [dueIsLess, hbd, hna]
      rw [h] at htrue
      exact Bool.noConfusion htrue
  · refine (sortByDue_pairwise L.tasks).imp ?_
    intro a b h da db hda hdb
    have heq : dueIsLess b a = dateLt db da := by rw [dueIsLess, hdb, hda]
    rw [← heq]
    exact h

/-- C9 witness: the permutation part instantiated at a concrete list. -/
theorem c9_sort_due_witness : ((sortDue exList).tasks).Perm exList.tasks :=
  (c9_sort_due exList).2.2.1

/-- C10: a property line with no value after the colon makes the decoder
return the `InvalidField` error, whatever the property name; in particular a
full decode of a file with such a line fails with `InvalidField`. -/
theorem c10_absent_value_invalid_field :
    (∀ (now : DateTime) (fresh : Nat → Str) (s : DecState) (nm : Str),
      step now fresh s (PropLine.prop ⟨nm, none⟩)
        = StepResult.err ParseFromFileError.InvalidField)
    ∧ from_ical_string now0 fresh0
        (str "BEGIN:VCALENDAR\nX-CUSTOM:\nEND:VCALENDAR\n")
      = DecodeOutcome.err ParseFromFileError.InvalidField := by
  refine ⟨fun now fresh s nm => step_novalue now fresh s nm, ?_⟩
  decide

/-- C10 witness: the absent-value behaviour at a concrete state and name. -/
theorem c10_absent_value_invalid_field_witness :
    step now0 fresh0 ⟨str "N", debugColor, [], 0⟩ (PropLine.prop ⟨str "X-CUSTOM", none⟩)
      = StepResult.err ParseFromFileError.InvalidField :=
  c10_absent_value_invalid_field.1 now0 fresh0 ⟨str "N", debugColor, [], 0⟩ (str "X-CUSTOM")

/-- C3 witness: the UID-ignoring step at a concrete state and value. -/
theorem c3_uid_ignored_witness :
    step now0 fresh0 ⟨str "N", debugColor, [], 0⟩
        (PropLine.prop ⟨str "UID", some (str "x")⟩)
      = StepResult.cont ⟨str "N", debugColor, [], 0⟩ :=
  c3_uid_ignored.1 now0 fresh0 ⟨str "N", debugColor, [], 0⟩ (str "x")

end Taskmaster
